import Mathlib

/-!
Shallow embedding of the snapshot-store core (content-addressed object store
with snapshot semantics) and proofs about its operations.

Conventions of the embedding:
* Python/JSON dynamic values are the inductive `Jx` (floats are not used by
  any property under study and are omitted from the value universe).
* Python dicts are association lists `List (String × Jx)`; Python dict
  construction cannot produce duplicate keys, which is captured where needed
  by `Nodup` hypotheses on the key lists.
* A stored object file's bytes are `FileBytes`: either bytes that parse as a
  JSON document (represented by the parsed value) or bytes that do not.
* The hash backend (BLAKE3 or SHA-256) is an opaque parameter
  `H : Jx → String` standing for `compute_object_hash`; the store code only
  ever applies it and compares its outputs.
* Fallible operations return `Except Err α`; mutating operations also return
  the post-state, with the convention that the returned state is the real
  state even on error.
* Unbounded `while` loops are embedded with an explicit fuel argument; the
  top-level wrappers supply fuel large enough for the loop's own termination
  measure, and running out of fuel is reported as `Err.outOfFuel`.
-/

/-- Dynamic JSON-like values (Python objects admitted by the canonical
encoder, minus floats which no studied property exercises). -/
inductive Jx where
  | null : Jx
  | bool (b : Bool) : Jx
  | int (n : Int) : Jx
  | str (s : String) : Jx
  | arr (l : List Jx) : Jx
  | obj (kvs : List (String × Jx)) : Jx

mutual

/-- Structural Boolean equality on `Jx` (the derive handler does not support
this nested inductive, so the instance is built by hand). -/
def jxBeq : Jx → Jx → Bool
  | .null, .null => true
  | .bool a, .bool b => a == b
  | .int a, .int b => a == b
  | .str a, .str b => a == b
  | .arr a, .arr b => jxBeqL a b
  | .obj a, .obj b => jxBeqKV a b
  | _, _ => false

/-- Pointwise equality of value lists. -/
def jxBeqL : List Jx → List Jx → Bool
  | [], [] => true
  | a :: t, b :: u => jxBeq a b && jxBeqL t u
  | _, _ => false

/-- Pointwise equality of entry lists. -/
def jxBeqKV : List (String × Jx) → List (String × Jx) → Bool
  | [], [] => true
  | (k, v) :: t, (k', v') :: u => k == k' && jxBeq v v' && jxBeqKV t u
  | _, _ => false

end

mutual

theorem jxBeq_refl : ∀ a : Jx, jxBeq a a = true
  | .null => rfl
  | .bool a => by simp [jxBeq]
  | .int a => by simp [jxBeq]
  | .str a => by simp [jxBeq]
  | .arr a => by simp [jxBeq, jxBeqL_refl a]
  | .obj a => by simp [jxBeq, jxBeqKV_refl a]

theorem jxBeqL_refl : ∀ l : List Jx, jxBeqL l l = true
  | [] => rfl
  | a :: t => by simp [jxBeqL, jxBeq_refl a, jxBeqL_refl t]

theorem jxBeqKV_refl : ∀ l : List (String × Jx), jxBeqKV l l = true
  | [] => rfl
  | (k, v) :: t => by simp [jxBeqKV, jxBeq_refl v, jxBeqKV_refl t]

end

mutual

theorem jxBeq_eq : ∀ a b : Jx, jxBeq a b = true → a = b
  | .null, .null, _ => rfl
  | .bool a, .bool b, h => by
    simp only [jxBeq, beq_iff_eq] at h
    exact congrArg Jx.bool h
  | .int a, .int b, h => by
    simp only [jxBeq, beq_iff_eq] at h
    exact congrArg Jx.int h
  | .str a, .str b, h => by
    simp only [jxBeq, beq_iff_eq] at h
    exact congrArg Jx.str h
  | .arr a, .arr b, h => congrArg Jx.arr (jxBeqL_eq a b h)
  | .obj a, .obj b, h => congrArg Jx.obj (jxBeqKV_eq a b h)
  | .null, .bool _, h => nomatch h
  | .null, .int _, h => nomatch h
  | .null, .str _, h => nomatch h
  | .null, .arr _, h => nomatch h
  | .null, .obj _, h => nomatch h
  | .bool _, .null, h => nomatch h
  | .bool _, .int _, h => nomatch h
  | .bool _, .str _, h => nomatch h
  | .bool _, .arr _, h => nomatch h
  | .bool _, .obj _, h => nomatch h
  | .int _, .null, h => nomatch h
  | .int _, .bool _, h => nomatch h
  | .int _, .str _, h => nomatch h
  | .int _, .arr _, h => nomatch h
  | .int _, .obj _, h => nomatch h
  | .str _, .null, h => nomatch h
  | .str _, .bool _, h => nomatch h
  | .str _, .int _, h => nomatch h
  | .str _, .arr _, h => nomatch h
  | .str _, .obj _, h => nomatch h
  | .arr _, .null, h => nomatch h
  | .arr _, .bool _, h => nomatch h
  | .arr _, .int _, h => nomatch h
  | .arr _, .str _, h => nomatch h
  | .arr _, .obj _, h => nomatch h
  | .obj _, .null, h => nomatch h
  | .obj _, .bool _, h => nomatch h
  | .obj _, .int _, h => nomatch h
  | .obj _, .str _, h => nomatch h
  | .obj _, .arr _, h => nomatch h

theorem jxBeqL_eq : ∀ a b : List Jx, jxBeqL a b = true → a = b
  | [], [], _ => rfl
  | x :: t, y :: u, h => by
    simp only [jxBeqL, Bool.and_eq_true] at h
    rw [jxBeq_eq x y h.1, jxBeqL_eq t u h.2]
  | [], _ :: _, h => nomatch h
  | _ :: _, [], h => nomatch h

theorem jxBeqKV_eq :
    ∀ a b : List (String × Jx), jxBeqKV a b = true → a = b
  | [], [], _ => rfl
  | (k, v) :: t, (k', v') :: u, h => by
    simp only [jxBeqKV, Bool.and_eq_true, beq_iff_eq] at h
    rw [h.1.1, jxBeq_eq v v' h.1.2, jxBeqKV_eq t u h.2]
  | [], _ :: _, h => nomatch h
  | _ :: _, [], h => nomatch h

end

instance : DecidableEq Jx := fun a b =>
  if h : jxBeq a b = true then isTrue (jxBeq_eq a b h)
  else isFalse (fun hh => h (hh ▸ jxBeq_refl a))

/-- Python truthiness of a `Jx` value. -/
def jTruthy : Jx → Bool
  | .null => false
  | .bool b => b
  | .int n => n != 0
  | .str s => s != ""
  | .arr l => !l.isEmpty
  | .obj kvs => !kvs.isEmpty

/-- Lookup in an association list, first match (Python dict access /
`dict.get`). -/
def lookupKV {α : Type} (l : List (String × α)) (k : String) : Option α :=
  match l with
  | [] => none
  | (k', v) :: t => if k' = k then some v else lookupKV t k

/-- Replace the binding of `k` (first occurrence) or append it: the state
update produced by writing the file for key `k`. -/
def setKV {α : Type} (l : List (String × α)) (k : String) (v : α) :
    List (String × α) :=
  match l with
  | [] => [(k, v)]
  | (k', v') :: t => if k' = k then (k, v) :: t else (k', v') :: setKV t k v

/-- Remove every binding of `k` (file deletion). -/
def removeKV {α : Type} (l : List (String × α)) (k : String) :
    List (String × α) :=
  l.filter (fun p => p.1 ≠ k)

/-- JSON string escaping as performed by `json.dumps` with
`ensure_ascii=False`: escape quote, backslash and control characters. -/
def jEscapeChar (c : Char) : String :=
  if c = '"' then "\\\""
  else if c = '\\' then "\\\\"
  else if c = '\n' then "\\n"
  else if c = '\t' then "\\t"
  else if c = '\r' then "\\r"
  else if c.toNat < 32 then
    "\\u00" ++ String.mk [Nat.digitChar (c.toNat / 16), Nat.digitChar (c.toNat % 16)]
  else String.mk [c]

/-- Quote a string as a JSON string literal. -/
def jQuote (s : String) : String :=
  "\"" ++ String.join (s.toList.map jEscapeChar) ++ "\""

/-- Comma-join a list of strings (the separators are `,` and `:` with no
whitespace, per `canonical_json`). -/
def joinComma : List String → String
  | [] => ""
  | [x] => x
  | x :: t => x ++ "," ++ joinComma t

/-- Lexicographic comparison of character lists by code point, the order
Python uses to compare strings (and hence the key order of
`json.dumps(sort_keys=True)`). -/
def charsLeB : List Char → List Char → Bool
  | [], _ => true
  | _ :: _, [] => false
  | a :: t, b :: u =>
    if a.toNat < b.toNat then true
    else if a.toNat = b.toNat then charsLeB t u
    else false

/-- String order by code points. -/
def strLeB (a b : String) : Bool := charsLeB a.toList b.toList

theorem charsLeB_total : ∀ a b : List Char, charsLeB a b = true ∨ charsLeB b a = true
  | [], _ => Or.inl rfl
  | _ :: _, [] => Or.inr rfl
  | a :: t, b :: u => by
    rcases Nat.lt_trichotomy a.toNat b.toNat with h | h | h
    · left; simp [charsLeB, h]
    · rcases charsLeB_total t u with h' | h'
      · left; simp [charsLeB, h, h']
      · right; simp [charsLeB, h.symm, h']
    · right; simp [charsLeB, h]

theorem charsLeB_trans :
    ∀ a b c : List Char, charsLeB a b = true → charsLeB b c = true →
      charsLeB a c = true
  | [], _, _, _, _ => rfl
  | _ :: _, [], _, h, _ => nomatch h
  | _ :: _, _ :: _, [], _, h' => nomatch h'
  | a :: t, b :: u, c :: w, h, h' => by
    simp only [charsLeB] at h h' ⊢
    by_cases hab : a.toNat < b.toNat
    · by_cases hbc : b.toNat < c.toNat
      · rw [if_pos (Nat.lt_trans hab hbc)]
      · by_cases heq : b.toNat = c.toNat
        · rw [if_pos (heq ▸ hab)]
        · rw [if_neg hbc, if_neg heq] at h'
          exact absurd h' (by simp)
    · by_cases heq : a.toNat = b.toNat
      · rw [if_neg hab, if_pos heq] at h
        by_cases hbc : b.toNat < c.toNat
        · rw [if_pos (heq ▸ hbc)]
        · by_cases heq2 : b.toNat = c.toNat
          · rw [if_neg hbc, if_pos heq2] at h'
            have hac : a.toNat = c.toNat := heq.trans heq2
            rw [if_neg (by omega), if_pos hac]
            exact charsLeB_trans t u w h h'
          · rw [if_neg hbc, if_neg heq2] at h'
            exact absurd h' (by simp)
      · rw [if_neg hab, if_neg heq] at h
        exact absurd h (by simp)

theorem charsLeB_antisymm :
    ∀ a b : List Char, charsLeB a b = true → charsLeB b a = true → a = b
  | [], [], _, _ => rfl
  | [], _ :: _, _, h' => nomatch h'
  | _ :: _, [], h, _ => nomatch h
  | a :: t, b :: u, h, h' => by
    simp only [charsLeB] at h h'
    by_cases hab : a.toNat < b.toNat
    · rw [if_neg (by omega), if_neg (by omega)] at h'
      exact absurd h' (by simp)
    · by_cases heq : a.toNat = b.toNat
      · have hcb : a = b := Char.ext (UInt32.ext heq)
        subst hcb
        rw [if_neg hab, if_pos rfl] at h h'
        rw [charsLeB_antisymm t u h h']
      · rw [if_neg hab, if_neg heq] at h
        exact absurd h (by simp)

theorem strLeB_total (a b : String) : strLeB a b = true ∨ strLeB b a = true :=
  charsLeB_total a.toList b.toList

theorem strLeB_trans {a b c : String} (h : strLeB a b = true)
    (h' : strLeB b c = true) : strLeB a c = true :=
  charsLeB_trans a.toList b.toList c.toList h h'

theorem strLeB_antisymm {a b : String} (h : strLeB a b = true)
    (h' : strLeB b a = true) : a = b := by
  have := charsLeB_antisymm a.toList b.toList h h'
  exact String.ext this

/-- Key order used by `json.dumps(sort_keys=True)`: compare entries by key. -/
def keyLE {α : Type} (p q : String × α) : Prop := strLeB p.1 q.1 = true

instance {α : Type} : DecidableRel (keyLE (α := α)) :=
  fun p q => (inferInstance : Decidable (strLeB p.1 q.1 = true))

instance {α : Type} : IsTotal (String × α) (keyLE (α := α)) :=
  ⟨fun a b => strLeB_total a.1 b.1⟩

instance {α : Type} : IsTrans (String × α) (keyLE (α := α)) :=
  ⟨fun _ _ _ h h' => strLeB_trans h h'⟩

mutual

/-- From `canonical_json` in `integrity/canonical.py`: JSON encoding with
keys of every mapping in sorted order, separators without whitespace
(entries are encoded first, then sorted by key, which commutes with the
source's order of sorting first since the comparison only reads keys). -/
def canonicalJson : Jx → String
  | .null => "null"
  | .bool true => "true"
  | .bool false => "false"
  | .int n => toString n
  | .str s => jQuote s
  | .arr l => "[" ++ joinComma (canonList l) ++ "]"
  | .obj kvs =>
    "\x7b" ++
      joinComma (((canonKVs kvs).insertionSort keyLE).map
        (fun p => jQuote p.1 ++ ":" ++ p.2)) ++ "\x7d"

/-- Encode each element of a list. -/
def canonList : List Jx → List String
  | [] => []
  | x :: t => canonicalJson x :: canonList t

/-- Encode the value of each entry of a mapping. -/
def canonKVs : List (String × Jx) → List (String × String)
  | [] => []
  | (k, v) :: t => (k, canonicalJson v) :: canonKVs t

end

instance {ε α : Type} [DecidableEq ε] [DecidableEq α] : DecidableEq (Except ε α)
  | .ok a, .ok b =>
    if h : a = b then isTrue (h ▸ rfl)
    else isFalse (fun hh => h (Except.ok.inj hh))
  | .error a, .error b =>
    if h : a = b then isTrue (h ▸ rfl)
    else isFalse (fun hh => h (Except.error.inj hh))
  | .ok _, .error _ => isFalse (fun h => Except.noConfusion h)
  | .error _, .ok _ => isFalse (fun h => Except.noConfusion h)

/-- Contents of one stored file: either bytes that parse as a JSON document
(represented by the parsed value; `put_object` only ever writes
`canonical_json` bytes, and every modeled reader immediately parses what it
reads, so a parseable file is characterized by its parsed value) or bytes
that `json.loads` rejects. -/
inductive FileBytes where
  | json (v : Jx) : FileBytes
  | raw (b : String) : FileBytes
deriving DecidableEq

/-- Errors of `errors.py`, plus the built-in Python exceptions the storage
code can raise (`ValueError` from `get_hash_prefix` and `_sanitize_name`,
`TypeError` from slicing a non-string) and fuel exhaustion of an embedded
loop. -/
inductive Err where
  | notFound (h : String) : Err
  | corrupted (h : String) : Err
  | invalidObject (reason : String) : Err
  | storageError (op : String) : Err
  | valueError (msg : String) : Err
  | typeError : Err
  | invalidReference (reason : String) : Err
  | outOfFuel : Err
deriving DecidableEq

/-- The filesystem state of one store: `objects/<d[:2]>/<d>` files keyed by
digest (the two-character shard directory is a function of the digest, so
digest-to-path is injective and the map is keyed by the digest itself) and
`snapshots/<name>` named-reference files keyed by sanitized name. -/
structure Store where
  objects : List (String × FileBytes)
  snapRefs : List (String × String)
deriving DecidableEq

/-- From `get_hash_prefix` in `integrity/hashing.py`: a digest shorter than
the shard length raises `ValueError`, which every path computation
(`get_object_path`) propagates. -/
def shardOk (h : String) : Bool := 2 ≤ h.length

/-- From `StorageLayout._sanitize_name`: replace path separators with
underscores (the two single-character `str.replace` calls act
character-wise), strip leading dots, reject the empty result. -/
def sanitizeName (name : String) : Option String :=
  let n := (name.toList.map
    (fun c => if c = '/' ∨ c = '\\' then '_' else c)).dropWhile (· = '.')
  if n.isEmpty then none else some (String.mk n)

/-- From `verify_object_structure` in `integrity/verification.py`: a record
must be a dict with `type` and `content` fields, a known type tag, and (if
present) a dict `metadata`. -/
def verifyObjectStructureE (v : Jx) : Except Err Unit :=
  match v with
  | .obj kvs =>
    if (lookupKV kvs "type").isNone then
      .error (.invalidObject "Object missing type field")
    else if (lookupKV kvs "content").isNone then
      .error (.invalidObject "Object missing content field")
    else if !(lookupKV kvs "type" = some (.str "blob") ∨
              lookupKV kvs "type" = some (.str "bundle") ∨
              lookupKV kvs "type" = some (.str "snapshot") ∨
              lookupKV kvs "type" = some (.str "tree") : Bool) then
      .error (.invalidObject "Invalid object type")
    else
      match lookupKV kvs "metadata" with
      | some (.obj _) => .ok ()
      | some _ => .error (.invalidObject "Metadata must be a dictionary")
      | none => .ok ()
  | _ => .error (.invalidObject "Object must be a dictionary")

/-- From `ObjectStore.get_object`: path computation (`ValueError` on a short
digest), `NotFound` when the file is absent, `StorageError` when the bytes
do not parse, then (when `verify` is set) structural validation and the
integrity check `compute_object_hash(record) == digest` with `Corrupted` on
mismatch. -/
def getObjectE (H : Jx → String) (s : Store) (h : String) (verify : Bool) :
    Except Err Jx :=
  if !shardOk h then .error (.valueError "Hash too short for shard length")
  else
    match lookupKV s.objects h with
    | none => .error (.notFound h)
    | some (.raw _) => .error (.storageError "read_object")
    | some (.json v) =>
      if verify then
        match verifyObjectStructureE v with
        | .error e => .error e
        | .ok _ => if H v = h then .ok v else .error (.corrupted h)
      else .ok v

/-- From `ObjectStore.has_object` / `StorageLayout.object_exists`: path
computation can raise on a short digest; otherwise report file existence. -/
def hasObjectE (s : Store) (h : String) : Except Err Bool :=
  if !shardOk h then .error (.valueError "Hash too short for shard length")
  else .ok (lookupKV s.objects h).isSome

/-- From `ObjectStore.put_object`: validate structure, hash the record, and
either return early (file already present, parseable, and re-hashing to the
digest) or write the canonical bytes at the digest's path (also overwriting
a corrupt existing file). The write itself is atomic, so its only visible
effect is the final file content. Returns the digest and the post-state;
on error the state is unchanged. -/
def putObjectE (H : Jx → String) (s : Store) (r : Jx) :
    Except Err String × Store :=
  match verifyObjectStructureE r with
  | .error e => (.error e, s)
  | .ok _ =>
    let d := H r
    if !shardOk d then (.error (.valueError "Hash too short for shard length"), s)
    else
      match lookupKV s.objects d with
      | some (.json e) =>
        if H e = d then (.ok d, s)
        else (.ok d, { s with objects := setKV s.objects d (.json r) })
      | some (.raw _) => (.ok d, { s with objects := setKV s.objects d (.json r) })
      | none => (.ok d, { s with objects := setKV s.objects d (.json r) })

/-- From `ObjectStore.delete_object`: path computation, then unlink,
reporting whether a file was removed. -/
def deleteObjectE (s : Store) (h : String) : Except Err Bool × Store :=
  if !shardOk h then (.error (.valueError "Hash too short for shard length"), s)
  else if (lookupKV s.objects h).isSome then
    (.ok true, { s with objects := removeKV s.objects h })
  else (.ok false, s)

/-- From `ObjectStore.put_snapshot_ref`: require the target object to exist
(`NotFound` otherwise; the existence check itself can raise `ValueError` on
a short digest), sanitize the name, then write the digest as text with
`Path.write_text` (a direct truncating write, not the temp-file-then-rename
protocol used for objects). -/
def putSnapshotRefE (s : Store) (name digest : String) :
    Except Err Unit × Store :=
  if !shardOk digest then (.error (.valueError "Hash too short for shard length"), s)
  else if (lookupKV s.objects digest).isNone then (.error (.notFound digest), s)
  else
    match sanitizeName name with
    | none => (.error (.valueError "Name cannot be empty after sanitization"), s)
    | some n => (.ok (), { s with snapRefs := setKV s.snapRefs n digest })

/-- The reference-file state visible if the `Path.write_text` call inside
`put_snapshot_ref` is interrupted after `k` of its primitive steps
(`write_text` opens the file in `w` mode — truncating it — and then writes
the payload): `k = 0` is before the open, `k = 1` is after the truncating
open but before the write, `k ≥ 2` is the completed write. The preceding
existence check and sanitization behave as in `putSnapshotRefE`. -/
def putSnapshotRefCrash (s : Store) (name digest : String) (k : Nat) : Store :=
  if !shardOk digest then s
  else if (lookupKV s.objects digest).isNone then s
  else
    match sanitizeName name with
    | none => s
    | some n =>
      match k with
      | 0 => s
      | 1 => { s with snapRefs := setKV s.snapRefs n "" }
      | _ => { s with snapRefs := setKV s.snapRefs n digest }

/-- An element of the GC's `refs` set: Python `set` can hold any hashable
value. String references are digests; a non-string hashable value
(`int`, `bool`, `None` from malformed reference lists) is kept abstract as
`other` — slicing it in `get_hash_prefix` raises `TypeError` as soon as the
mark loop pops it, aborting the mark phase. -/
inductive GRef where
  | s (v : String) : GRef
  | other : GRef
deriving DecidableEq

/-- Python `set.update(x)` over one `bundles`/`children` value: iterate `x`
and add each element. Iterating a string adds its one-character substrings;
iterating a dict adds its keys; lists contribute their elements, where an
unhashable element (list/dict) raises `TypeError` (modeled as `none`);
non-iterable values raise `TypeError`. -/
def setUpdateRefs (x : Jx) : Option (List GRef) :=
  match x with
  | .arr l =>
    l.mapM (fun e =>
      match e with
      | .str v => some (.s v)
      | .int _ => some .other
      | .bool _ => some .other
      | .null => some .other
      | .arr _ => none
      | .obj _ => none)
  | .str v => some (v.toList.map (fun c => .s (String.mk [c])))
  | .obj kvs => some (kvs.map (fun p => GRef.s p.1))
  | _ => none

/-- From `extract_references` in `integrity/verification.py`: snapshots
reference their `bundles` entries and a truthy `parent`; trees reference
their `children`; everything else references nothing. `none` models a
`TypeError` escaping the extraction (including calling it on a non-dict
record, where `.get` raises `AttributeError`). Duplicates and order of the
returned list are irrelevant to every use (the Python function returns a
set). -/
def extractRefs (v : Jx) : Option (List GRef) :=
  match v with
  | .obj kvs =>
    let ty := lookupKV kvs "type"
    let content := (lookupKV kvs "content").getD (.obj [])
    if ty = some (.str "snapshot") then
      match content with
      | .obj ckvs =>
        let bpart : Option (List GRef) :=
          match lookupKV ckvs "bundles" with
          | none => some []
          | some bv => setUpdateRefs bv
        let ppart : Option (List GRef) :=
          match lookupKV ckvs "parent" with
          | none => some []
          | some p =>
            if jTruthy p then
              match p with
              | .str ps => some [.s ps]
              | .int _ => some [.other]
              | .bool _ => some [.other]
              | _ => none
            else some []
        match bpart, ppart with
        | some b, some p => some (b ++ p)
        | _, _ => none
      | _ => some []
    else if ty = some (.str "tree") then
      match content with
      | .obj ckvs =>
        match lookupKV ckvs "children" with
        | none => some []
        | some cv => setUpdateRefs cv
      | _ => some []
    else some []
  | _ => none

/-- The GC's `exists_func` (`has_object`): `none` models the `ValueError`
raised by `get_hash_prefix` on a digest shorter than the shard length; such
an exception is raised outside any handler of `_mark_reachable` and aborts
the whole mark phase. -/
def gcExists (s : Store) (h : String) : Option Bool :=
  if !shardOk h then none else some (lookupKV s.objects h).isSome

/-- The GC's `load_object_func` is `get_object(h, verify=False)`; inside
`_mark_reachable` every exception it raises is caught and treated as a
failed load, so all failure modes collapse to `none`. -/
def gcLoad (s : Store) (h : String) : Option Jx :=
  if !shardOk h then none
  else
    match lookupKV s.objects h with
    | some (.json v) => some v
    | _ => none

/-- From `GarbageCollector._mark_reachable`: breadth-first traversal with a
reachable set and a queue. A popped digest already marked or absent is
skipped; otherwise it is marked, loaded (a failed load keeps it marked but
ends its traversal) and its references are enqueued if not yet marked.
`none` models an exception escaping the loop (non-string reference or short
digest popped, i.e. `TypeError`/`ValueError` from `exists_func`) — and,
as a conservative artifact of the embedding, fuel exhaustion, which the
top-level wrapper's fuel budget rules out. -/
def markFuel (s : Store) : Nat → List String → List GRef → Option (List String)
  | 0, _, _ => none
  | _ + 1, reach, [] => some reach
  | fuel + 1, reach, r :: q =>
    match r with
    | .other => none
    | .s h =>
      if h ∈ reach then markFuel s fuel reach q
      else
        match gcExists s h with
        | none => none
        | some false => markFuel s fuel reach q
        | some true =>
          let reach' := reach ++ [h]
          match gcLoad s h with
          | none => markFuel s fuel reach' q
          | some v =>
            match extractRefs v with
            | none => markFuel s fuel reach' q
            | some refs =>
              markFuel s fuel reach'
                (q ++ refs.filter (fun rr =>
                  match rr with
                  | .s hh => decide (hh ∉ reach')
                  | .other => true))

/-- Fuel sufficient for the mark loop: one unit per initial queue element
plus, for every stored object, one unit for its own pop and one per
reference it can enqueue (a digest is enqueued-by-traversal at most once
because it is marked before its references are pushed). -/
def gcFuel (s : Store) (roots : List String) : Nat :=
  roots.length + 1 +
    (s.objects.map (fun p =>
      1 + (match p.2 with
           | .json v => ((extractRefs v).getD []).length
           | .raw _ => 0))).sum

/-- Result record of `GarbageCollector.collect`, plus the post-state of the
store mutated through the `delete_object` callback. -/
structure GcResult where
  reachable : List String
  unreachable : List String
  deleted : List String
  errors : List String
  store : Store
deriving DecidableEq

/-- Sweep phase of `GarbageCollector.collect`: for each unreachable digest,
re-check it against the reachable set, then delete it, collecting errors
(`ValueError` from a short stored digest) without aborting. Returns
(deleted, errors, state) accumulated left to right. -/
def sweepFuel (reach : List String) :
    List String → List String → List String → Store →
      List String × List String × Store
  | [], deleted, errors, st => (deleted, errors, st)
  | h :: t, deleted, errors, st =>
    if h ∈ reach then
      sweepFuel reach t deleted
        (errors ++ ["Safety violation: attempted to delete reachable object " ++ h]) st
    else
      match deleteObjectE st h with
      | (.ok true, st') => sweepFuel reach t (deleted ++ [h]) errors st'
      | (.ok false, st') => sweepFuel reach t deleted errors st'
      | (.error _, st') =>
        sweepFuel reach t deleted (errors ++ ["Failed to delete " ++ h]) st'

/-- From `GarbageCollector.collect`: mark from the roots (a failed mark
phase reports an error and performs no sweep), list all objects, compute
the unreachable set, and — unless `dry_run` is set or nothing is
unreachable — sweep it. -/
def gcCollect (s : Store) (roots : List String) (dryRun : Bool) : GcResult :=
  match markFuel s (gcFuel s roots) [] (roots.map GRef.s) with
  | none => ⟨[], [], [], ["Mark phase failed"], s⟩
  | some reach =>
    let allObjs := s.objects.map Prod.fst
    let unreach := allObjs.filter (fun h => h ∉ reach)
    if !dryRun && !unreach.isEmpty then
      match sweepFuel reach unreach [] [] s with
      | (deleted, errors, st') => ⟨reach, unreach, deleted, errors, st'⟩
    else ⟨reach, unreach, [], [], s⟩

/-- Transitive reachability through stored, loadable objects: the
specification-level root set and reference-following relation of the GC
(`snapshot` records reference their bundles and parent, `tree` records
their children, exactly as `extract_references` computes). -/
inductive ReachableFrom (s : Store) (roots : List String) : String → Prop where
  | root {h : String} : h ∈ roots → ReachableFrom s roots h
  | step {h h' : String} {v : Jx} {refs : List GRef} :
      ReachableFrom s roots h → gcLoad s h = some v →
      extractRefs v = some refs → GRef.s h' ∈ refs →
      ReachableFrom s roots h'

/-- The standard base64 alphabet. -/
def b64Alphabet : List Char :=
  ("ABCDEFGHIJKLMNOPQRSTUVWXYZabcdefghijklmnopqrstuvwxyz0123456789+/").toList

/-- Character of a six-bit group. -/
def sixToChar (v : Nat) : Char := b64Alphabet.getD v '?'

/-- Index of a character in a list, or `none`. -/
def idxOf : List Char → Char → Nat → Option Nat
  | [], _, _ => none
  | x :: t, c, i => if x = c then some i else idxOf t c (i + 1)

/-- Six-bit value of an alphabet character. -/
def charToSix (c : Char) : Option Nat := idxOf b64Alphabet c 0

/-- `base64.b64encode` over a byte list: three bytes become four alphabet
characters, with `=` padding for a final group of one or two bytes. -/
def b64encodeL : List Nat → List Char
  | [] => []
  | [a] => [sixToChar (a / 4), sixToChar (a % 4 * 16), '=', '=']
  | [a, b] =>
    [sixToChar (a / 4), sixToChar (a % 4 * 16 + b / 16), sixToChar (b % 16 * 4), '=']
  | a :: b :: c :: rest =>
    sixToChar (a / 4) :: sixToChar (a % 4 * 16 + b / 16) ::
      sixToChar (b % 16 * 4 + c / 64) :: sixToChar (c % 64) :: b64encodeL rest

/-- `base64.b64decode` over well-formed base64 text: groups of four
characters with `=` padding (behavior on text `b64encode` cannot produce,
such as stray padding, is irrelevant to the studied properties and is
mapped to `none`). -/
def b64decodeL : List Char → Option (List Nat)
  | [] => some []
  | c1 :: c2 :: c3 :: c4 :: rest =>
    match charToSix c1, charToSix c2 with
    | some v1, some v2 =>
      if c3 = '=' && c4 = '=' && rest.isEmpty then
        some [v1 * 4 + v2 / 16]
      else if c4 = '=' && rest.isEmpty then
        match charToSix c3 with
        | some v3 => some [v1 * 4 + v2 / 16, v2 % 16 * 16 + v3 / 4]
        | none => none
      else
        match charToSix c3, charToSix c4, b64decodeL rest with
        | some v3, some v4, some r =>
          some ((v1 * 4 + v2 / 16) :: (v2 % 16 * 16 + v3 / 4) :: (v3 % 4 * 64 + v4) :: r)
        | _, _, _ => none
    | _, _ => none
  | _ => none

/-- Python-dict field access `v.get(k)` on a value known to be a dict. -/
def jGet (v : Jx) (k : String) : Option Jx :=
  match v with
  | .obj kvs => lookupKV kvs k
  | _ => none

/-- Model of the `Snapshot` class of `model/snapshot.py` (post-constructor
state). The dynamic `parent` and `metadata` fields are arbitrary values, as
in the source. -/
structure SnapshotM where
  bundles : List Jx
  parent : Option Jx
  metadata : Jx
deriving DecidableEq

/-- `Snapshot.__init__`: copy the bundles, keep the parent, normalize a
falsy metadata argument to the empty dict (`metadata or {}`). -/
def mkSnapshot (bundles : List Jx) (parent : Option Jx) (metadata : Jx) :
    SnapshotM :=
  ⟨bundles, parent, if jTruthy metadata then metadata else .obj []⟩

/-- `Snapshot.to_dict`: `bundles` always, `parent` only when truthy,
`metadata` only when truthy. -/
def SnapshotM.toDict (sn : SnapshotM) : Jx :=
  .obj ([("type", Jx.str "snapshot"),
         ("content", Jx.obj ([("bundles", Jx.arr sn.bundles)] ++
           (match sn.parent with
            | some p => if jTruthy p then [("parent", p)] else []
            | none => [])))] ++
        (if jTruthy sn.metadata then [("metadata", sn.metadata)] else []))

/-- `Snapshot.from_dict`: validate the type tag, the presence of `content`
and `bundles`, and that `bundles` is a list; read `parent` and `metadata`
with `.get`. Every raised exception (`ValueError`, and `TypeError` or
`AttributeError` on non-dict data) is an `error` value. -/
def SnapshotM.fromDict (d : Jx) : Except String SnapshotM :=
  match d with
  | .obj kvs =>
    if lookupKV kvs "type" ≠ some (.str "snapshot") then
      .error "Invalid snapshot type"
    else
      match lookupKV kvs "content" with
      | none => .error "Snapshot missing content field"
      | some (.obj ckvs) =>
        match lookupKV ckvs "bundles" with
        | none => .error "Snapshot content missing bundles field"
        | some (.arr bl) =>
          .ok (mkSnapshot bl (lookupKV ckvs "parent")
            ((lookupKV kvs "metadata").getD (.obj [])))
        | some _ => .error "Snapshot bundles must be a list"
      | some _ => .error "Snapshot content is not a mapping"
  | _ => .error "Snapshot data is not a mapping"

/-- Model of the `Bundle` class of `model/bundle.py`. -/
structure BundleM where
  bundleData : Jx
  metadata : Jx
deriving DecidableEq

/-- `Bundle.__init__`. -/
def mkBundle (bundleData metadata : Jx) : BundleM :=
  ⟨bundleData, if jTruthy metadata then metadata else .obj []⟩

/-- `Bundle.to_dict`. -/
def BundleM.toDict (b : BundleM) : Jx :=
  .obj ([("type", Jx.str "bundle"), ("content", b.bundleData)] ++
        (if jTruthy b.metadata then [("metadata", b.metadata)] else []))

/-- `Bundle.from_dict`. -/
def BundleM.fromDict (d : Jx) : Except String BundleM :=
  match d with
  | .obj kvs =>
    if lookupKV kvs "type" ≠ some (.str "bundle") then
      .error "Invalid bundle type"
    else
      match lookupKV kvs "content" with
      | none => .error "Bundle missing content field"
      | some content =>
        .ok (mkBundle content ((lookupKV kvs "metadata").getD (.obj [])))
  | _ => .error "Bundle data is not a mapping"

/-- Model of the `Blob` class of `model/blob.py`; `data` is the byte list. -/
structure BlobM where
  data : List Nat
  metadata : Jx
deriving DecidableEq

/-- `Blob.__init__`. -/
def mkBlob (data : List Nat) (metadata : Jx) : BlobM :=
  ⟨data, if jTruthy metadata then metadata else .obj []⟩

/-- `Blob.to_dict`: the content is the base64 text of the data. -/
def BlobM.toDict (b : BlobM) : Jx :=
  .obj ([("type", Jx.str "blob"),
         ("content", Jx.str (String.mk (b64encodeL b.data)))] ++
        (if jTruthy b.metadata then [("metadata", b.metadata)] else []))

/-- `Blob.from_dict`. -/
def BlobM.fromDict (d : Jx) : Except String BlobM :=
  match d with
  | .obj kvs =>
    if lookupKV kvs "type" ≠ some (.str "blob") then
      .error "Invalid blob type"
    else
      match lookupKV kvs "content" with
      | none => .error "Blob missing content field"
      | some (.str s) =>
        match b64decodeL s.toList with
        | some bytes =>
          .ok (mkBlob bytes ((lookupKV kvs "metadata").getD (.obj [])))
        | none => .error "Failed to decode blob content"
      | some _ => .error "Failed to decode blob content"
  | _ => .error "Blob data is not a mapping"

/-- Model of the `Tree` class of `model/tree.py`. -/
structure TreeM where
  children : List Jx
  metadata : Jx
deriving DecidableEq

/-- `Tree.__init__`. -/
def mkTree (children : List Jx) (metadata : Jx) : TreeM :=
  ⟨children, if jTruthy metadata then metadata else .obj []⟩

/-- `Tree.to_dict`. -/
def TreeM.toDict (t : TreeM) : Jx :=
  .obj ([("type", Jx.str "tree"),
         ("content", Jx.obj [("children", Jx.arr t.children)])] ++
        (if jTruthy t.metadata then [("metadata", t.metadata)] else []))

/-- `Tree.from_dict`. -/
def TreeM.fromDict (d : Jx) : Except String TreeM :=
  match d with
  | .obj kvs =>
    if lookupKV kvs "type" ≠ some (.str "tree") then
      .error "Invalid tree type"
    else
      match lookupKV kvs "content" with
      | none => .error "Tree missing content field"
      | some (.obj ckvs) =>
        match lookupKV ckvs "children" with
        | none => .error "Tree content missing children field"
        | some (.arr cl) =>
          .ok (mkTree cl ((lookupKV kvs "metadata").getD (.obj [])))
        | some _ => .error "Tree children must be a list"
      | some _ => .error "Tree content is not a mapping"
  | _ => .error "Tree data is not a mapping"

/-- From `SyncAdapter.create_snapshot_from_bundles`: the loop that requires
every bundle digest to exist (`InvalidObjectError` for an absent one; the
existence check can itself raise on a short digest). The parent digest is
not inspected by this loop. -/
def checkBundlesExistE (s : Store) : List String → Except Err Unit
  | [] => .ok ()
  | b :: t =>
    match hasObjectE s b with
    | .error e => .error e
    | .ok false => .error (.invalidObject ("Bundle does not exist: " ++ b))
    | .ok true => checkBundlesExistE s t

/-- From `SyncAdapter.create_snapshot_from_bundles`: verify the bundles
exist, build `Snapshot(bundle_hashes, parent, metadata).to_dict()`, and
store it with `put_object`. -/
def createSnapshotFromBundlesE (H : Jx → String) (s : Store)
    (bundleHashes : List String) (parent : Option String) (metadata : Jx) :
    Except Err String × Store :=
  match checkBundlesExistE s bundleHashes with
  | .error e => (.error e, s)
  | .ok _ =>
    putObjectE H s
      ((mkSnapshot (bundleHashes.map Jx.str) (parent.map Jx.str) metadata).toDict)

/-- From `SyncAdapter.get_snapshot_chain`: the `while current` walk. The
chain and visited set hold the dynamic `current` values; a revisit raises
`InvalidObjectError("Cycle detected in snapshot chain ...")`; loading uses
`get_object` with verification, `Snapshot.from_dict` errors propagate as
`ValueError`, and slicing a non-string current raises `TypeError`. -/
def gscLoop (H : Jx → String) (s : Store) :
    Nat → List Jx → List Jx → Option Jx → Except Err (List Jx)
  | 0, _, _, _ => .error .outOfFuel
  | fuel + 1, chain, visited, cur =>
    match cur with
    | none => .ok chain.reverse
    | some c =>
      if !jTruthy c then .ok chain.reverse
      else if c ∈ visited then
        .error (.invalidObject "Cycle detected in snapshot chain")
      else
        match c with
        | .str cs =>
          match getObjectE H s cs true with
          | .error e => .error e
          | .ok od =>
            match SnapshotM.fromDict od with
            | .error m => .error (.valueError m)
            | .ok sn =>
              gscLoop H s fuel (chain ++ [c]) (visited ++ [c]) sn.parent
        | _ => .error .typeError

/-- `get_snapshot_chain(digest)`: run the walk with fuel covering every
store object plus the initial step (each completed iteration visits a
distinct digest that `get_object` found in the store). -/
def getSnapshotChainE (H : Jx → String) (s : Store) (h : String) :
    Except Err (List Jx) :=
  gscLoop H s (s.objects.length + 2) [] [] (some (.str h))

/-- The two call shapes of `verify_snapshot_recursive`: verifying one
snapshot node, or iterating the reference loop of a node (the loop carries
the error list and the shared visited set; the node's own digest is no
longer needed inside the loop). -/
inductive VCall where
  | node (h : String) (visited : List String) : VCall
  | rloop (refs : List GRef) (errs : List String) (visited : List String) : VCall

/-- From `verify_references_exist` as called by `verify_snapshot_recursive`:
check each reference with `exists_func`, returning the first missing
reference (`ReferenceMissingError`, the only exception the caller catches)
or propagating a `TypeError`/`ValueError` crash from a malformed one. -/
def checkRefsExist (s : Store) : List GRef → Except Err (Option String)
  | [] => .ok none
  | .other :: _ => .error .typeError
  | .s rh :: t =>
    match hasObjectE s rh with
    | .error e => .error e
    | .ok false => .ok (some rh)
    | .ok true => checkRefsExist s t

/-- From `verify_snapshot_recursive` in `integrity/verification.py`, one
structurally recursive function over fuel (the source recursion terminates
because the shared visited set grows; the engine wrapper supplies
sufficient fuel). A `node` call: cycle check, load (all load exceptions
caught), structural validation, integrity against the digest, the
snapshot-type check, reference extraction (a `TypeError` here escapes —
`.error`), the existence check, then the reference loop. An `rloop` step
verifies one reference, recursing into it when it is itself a snapshot; a
failure on the reference itself appends one error and returns immediately,
while a failed sub-snapshot verification extends the errors and continues
with the remaining siblings. Results pair `(valid, errors)` with the
updated visited set. -/
def vsrF (H : Jx → String) (s : Store) :
    Nat → VCall → Except Err ((Bool × List String) × List String)
  | 0, _ => .error .outOfFuel
  | fuel + 1, .node h visited =>
    if h ∈ visited then .ok ((false, ["Cycle detected: " ++ h]), visited)
    else
      let visited' := visited ++ [h]
      match getObjectE H s h false with
      | .error _ => .ok ((false, ["Failed to load " ++ h]), visited')
      | .ok od =>
        match verifyObjectStructureE od with
        | .error _ => .ok ((false, ["Invalid structure in " ++ h]), visited')
        | .ok _ =>
          if H od ≠ h then .ok ((false, ["Corruption in " ++ h]), visited')
          else if jGet od "type" ≠ some (.str "snapshot") then
            .ok ((false, ["Object " ++ h ++ " is not a snapshot"]), visited')
          else
            match extractRefs od with
            | none => .error .typeError
            | some refs =>
              let refsD := refs.eraseDups
              match checkRefsExist s refsD with
              | .error e => .error e
              | .ok (some rh) =>
                .ok ((false,
                  ["Object " ++ h ++ " references missing object " ++ rh]),
                  visited')
              | .ok none => vsrF H s fuel (.rloop refsD [] visited')
  | _ + 1, .rloop [] errs visited => .ok ((errs.isEmpty, errs), visited)
  | fuel + 1, .rloop (r :: rest) errs visited =>
    match r with
    | .other =>
      .ok ((false, errs ++ ["Failed to verify reference (non-string)"]), visited)
    | .s rh =>
      match getObjectE H s rh false with
      | .error _ =>
        .ok ((false, errs ++ ["Failed to verify reference " ++ rh]), visited)
      | .ok rv =>
        match verifyObjectStructureE rv with
        | .error _ =>
          .ok ((false, errs ++ ["Failed to verify reference " ++ rh]), visited)
        | .ok _ =>
          if H rv ≠ rh then
            .ok ((false, errs ++ ["Failed to verify reference " ++ rh]), visited)
          else if jGet rv "type" = some (.str "snapshot") then
            match vsrF H s fuel (.node rh visited) with
            | .error _ =>
              .ok ((false, errs ++ ["Failed to verify reference " ++ rh]), visited)
            | .ok ((subValid, subErrs), visited') =>
              if subValid then vsrF H s fuel (.rloop rest errs visited')
              else vsrF H s fuel (.rloop rest (errs ++ subErrs) visited')
          else vsrF H s fuel (.rloop rest errs visited)

/-- Fuel for the engine wrapper: generous bound on the total number of
`vsrF` calls (each node call visits a fresh digest that is in the store or
fails fast, and each loop step consumes one reference of one stored
object). -/
def vsrFuel (s : Store) : Nat :=
  (s.objects.length + 2) *
    (2 + (s.objects.map (fun p =>
      match p.2 with
      | .json v => ((extractRefs v).getD []).length
      | .raw _ => 0)).sum) + 8

/-- From `SnapshotStoreEngine.verify_snapshot`: run the recursive verifier
with `load_func = get_object(·, verify=False)` and `exists_func =
has_object`, returning the `(valid, errors)` pair. -/
def engineVerifySnapshot (H : Jx → String) (s : Store) (h : String) :
    Except Err (Bool × List String) :=
  (vsrF H s (vsrFuel s) (.node h [])).map Prod.fst

/-- A concrete executable stand-in for the hash backend, used to instantiate
the `H` parameter in concrete counterexamples and witnesses: the canonical
encoding itself (deterministic, and at least two characters long on every
record). -/
def cxHash : Jx → String := canonicalJson

/-- A concrete well-formed bundle record. -/
def cxBundleRec : Jx :=
  .obj [("type", .str "bundle"), ("content", .obj [("sequence", .int 1)])]

/-- A second concrete bundle record. -/
def cxOrphanRec : Jx :=
  .obj [("type", .str "bundle"), ("content", .obj [("sequence", .int 2)])]

/-- A concrete snapshot record referencing the bundle at digest `bb`. -/
def cxSnapRec : Jx :=
  .obj [("type", .str "snapshot"), ("content", .obj [("bundles", .arr [.str "bb"])])]

/-- Store for the GC witness: a snapshot at `aa` referencing the bundle at
`bb`, plus an unreferenced bundle at `cc`. -/
def cxGcStore : Store :=
  ⟨[("aa", .json cxSnapRec), ("bb", .json cxBundleRec), ("cc", .json cxOrphanRec)], []⟩

/-- Snapshot record with two bundle references, for the verification
counterexample. -/
def cxVSnap : Jx :=
  .obj [("type", .str "snapshot"),
        ("content", .obj [("bundles", .arr [.str "b1", .str "b2"])])]

/-- Hash stand-in under which `cxVSnap` hashes to its digest `ss`. -/
def cxVH : Jx → String := fun v => if v = cxVSnap then "ss" else "zz"

/-- Store for the verification counterexample: the snapshot plus two
present-but-unparseable (corrupt) referenced files. -/
def cxVStore : Store :=
  ⟨[("ss", .json cxVSnap), ("b1", .raw "xx"), ("b2", .raw "xx")], []⟩

/-- Snapshot record whose parent is `bb`. -/
def cxCySnapA : Jx :=
  .obj [("type", .str "snapshot"),
        ("content", .obj [("bundles", .arr []), ("parent", .str "bb")])]

/-- Snapshot record whose parent is `aa`. -/
def cxCySnapB : Jx :=
  .obj [("type", .str "snapshot"),
        ("content", .obj [("bundles", .arr []), ("parent", .str "aa")])]

/-- Hash stand-in for the two-snapshot parent cycle. -/
def cxCyH : Jx → String :=
  fun v => if v = cxCySnapA then "aa" else if v = cxCySnapB then "bb" else "zz"

/-- Store whose two snapshots form a parent cycle `aa → bb → aa`. -/
def cxCyStore : Store := ⟨[("aa", .json cxCySnapA), ("bb", .json cxCySnapB)], []⟩

/-- Hash stand-in for the acyclic two-snapshot chain. -/
def cxAcyH : Jx → String :=
  fun v => if v = cxCySnapB then "bb" else if v = cxSnapRec then "aa" else "zz"

/-- Acyclic chain store: snapshot `bb` has parent `aa`; snapshot `aa` has no
parent. -/
def cxAcyStore : Store := ⟨[("bb", .json cxCySnapB), ("aa", .json cxSnapRec)], []⟩

/-- Store with one object at `dd` and a named reference `main → aa`, for the
reference-write atomicity counterexample. -/
def cxRefStore : Store := ⟨[("dd", .json cxBundleRec)], [("main", "aa")]⟩

/-- Store with a single stored bundle at `bb`, for the missing-parent
counterexample. -/
def cxParentStore : Store := ⟨[("bb", .json cxBundleRec)], []⟩

/-- Store with one unparseable object file at `dd`. -/
def cxRawStore : Store := ⟨[("dd", .raw "notjson")], []⟩

theorem lookupKV_setKV_self {α : Type} (l : List (String × α)) (k : String)
    (v : α) : lookupKV (setKV l k v) k = some v := by
  induction l with
  | nil => simp [setKV, lookupKV]
  | cons p t ih =>
    by_cases h : p.1 = k
    · simp [setKV, h, lookupKV]
    · simp [setKV, h, lookupKV, ih]

theorem lookupKV_setKV_ne {α : Type} (l : List (String × α)) (k k' : String)
    (v : α) (h : k' ≠ k) : lookupKV (setKV l k v) k' = lookupKV l k' := by
  induction l with
  | nil =>
    simp only [setKV, lookupKV]
    rw [if_neg (fun hh => h hh.symm)]
  | cons p t ih =>
    by_cases hk : p.1 = k
    · simp only [setKV, if_pos hk, lookupKV]
      have hp : p.1 ≠ k' := by
        rw [hk]
        exact fun hh => h hh.symm
      rw [if_neg (fun hh => h hh.symm), if_neg hp]
    · simp only [setKV, if_neg hk, lookupKV, ih]

theorem lookupKV_removeKV_ne {α : Type} (l : List (String × α))
    (k k' : String) (h : k' ≠ k) :
    lookupKV (removeKV l k) k' = lookupKV l k' := by
  induction l with
  | nil => simp [removeKV, lookupKV]
  | cons p t ih =>
    simp only [removeKV, List.filter_cons] at ih ⊢
    by_cases hk : p.1 = k
    · rw [if_neg (by simp [hk])]
      rw [ih]
      simp only [lookupKV]
      have hp : p.1 ≠ k' := fun hh => h (by rw [← hh, hk])
      rw [if_neg hp]
    · rw [if_pos (by simp [hk])]
      simp only [lookupKV, ih]

theorem put_object_idempotent (H : Jx → String) (s : Store) (r : Jx)
    (hs : verifyObjectStructureE r = .ok ()) (hl : 2 ≤ (H r).length) :
    ∃ s1, putObjectE H s r = (.ok (H r), s1) ∧
      putObjectE H s1 r = (.ok (H r), s1) ∧
      (lookupKV s1.objects (H r)).isSome := by
  have hshard : shardOk (H r) = true := by
    simp [shardOk]
    omega
  unfold putObjectE
  rw [hs]
  simp only [hshard, Bool.not_true, Bool.false_eq_true, if_false]
  cases hx : lookupKV s.objects (H r) with
  | none =>
    refine ⟨_, rfl, ?_, ?_⟩
    · rw [lookupKV_setKV_self]
      simp
    · simp [lookupKV_setKV_self]
  | some fb =>
    cases fb with
    | json e =>
      dsimp only
      by_cases he : H e = H r
      · rw [if_pos he]
        exact ⟨s, rfl, by rw [hx]; dsimp only; rw [if_pos he], by simp [hx]⟩
      · rw [if_neg he]
        refine ⟨_, rfl, ?_, ?_⟩
        · rw [lookupKV_setKV_self]
          simp
        · simp [lookupKV_setKV_self]
    | raw b =>
      refine ⟨_, rfl, ?_, ?_⟩
      · rw [lookupKV_setKV_self]
        simp
      · simp [lookupKV_setKV_self]

theorem put_object_idempotent_witness :
    verifyObjectStructureE cxBundleRec = .ok () ∧
    2 ≤ (cxHash cxBundleRec).length ∧
    (∃ s1, putObjectE cxHash ⟨[], []⟩ cxBundleRec = (.ok (cxHash cxBundleRec), s1) ∧
      putObjectE cxHash s1 cxBundleRec = (.ok (cxHash cxBundleRec), s1) ∧
      (lookupKV s1.objects (cxHash cxBundleRec)).isSome) :=
  ⟨by decide, by decide,
    put_object_idempotent cxHash ⟨[], []⟩ cxBundleRec (by decide) (by decide)⟩

/-- C10. Frame property of `put_object`: a successful `put_object(r)`
returning digest `d` computes `d = hash_object(r)`, changes no object file
at any digest other than `d`, and leaves every named snapshot reference
untouched. -/
theorem put_object_frame (H : Jx → String) (s : Store) (r : Jx) (d : String)
    (s1 : Store) (h : putObjectE H s r = (.ok d, s1)) :
    d = H r ∧ (∀ d', d' ≠ d → lookupKV s1.objects d' = lookupKV s.objects d') ∧
      s1.snapRefs = s.snapRefs := by
  unfold putObjectE at h
  cases hs : verifyObjectStructureE r with
  | error e =>
    rw [hs] at h
    exact absurd (congrArg Prod.fst h) (by simp)
  | ok u =>
    rw [hs] at h
    by_cases hsh : shardOk (H r) = true
    · simp only [hsh, Bool.not_true, Bool.false_eq_true, if_false] at h
      cases hx : lookupKV s.objects (H r) with
      | none =>
        rw [hx] at h
        dsimp only at h
        have hd : d = H r := by
          have := congrArg Prod.fst h
          simp at this
          exact this.symm
        have hst : s1 = { s with objects := setKV s.objects (H r) (.json r) } := by
          have := congrArg Prod.snd h
          simp at this
          exact this.symm
        subst hd hst
        exact ⟨rfl, fun d' hd' => lookupKV_setKV_ne s.objects (H r) d' _ hd', rfl⟩
      | some fb =>
        rw [hx] at h
        cases fb with
        | json e =>
          dsimp only at h
          by_cases he : H e = H r
          · rw [if_pos he] at h
            have hd : d = H r := by
              have := congrArg Prod.fst h
              simp at this
              exact this.symm
            have hst : s1 = s := by
              have := congrArg Prod.snd h
              simp at this
              exact this.symm
            subst hd hst
            exact ⟨rfl, fun _ _ => rfl, rfl⟩
          · rw [if_neg he] at h
            have hd : d = H r := by
              have := congrArg Prod.fst h
              simp at this
              exact this.symm
            have hst : s1 = { s with objects := setKV s.objects (H r) (.json r) } := by
              have := congrArg Prod.snd h
              simp at this
              exact this.symm
            subst hd hst
            exact ⟨rfl, fun d' hd' => lookupKV_setKV_ne s.objects (H r) d' _ hd', rfl⟩
        | raw b =>
          dsimp only at h
          have hd : d = H r := by
            have := congrArg Prod.fst h
            simp at this
            exact this.symm
          have hst : s1 = { s with objects := setKV s.objects (H r) (.json r) } := by
            have := congrArg Prod.snd h
            simp at this
            exact this.symm
          subst hd hst
          exact ⟨rfl, fun d' hd' => lookupKV_setKV_ne s.objects (H r) d' _ hd', rfl⟩
    · simp only [Bool.not_eq_true] at hsh
      simp only [hsh, Bool.not_false, if_true] at h
      exact absurd (congrArg Prod.fst h) (by simp)

theorem put_object_frame_witness :
    putObjectE cxHash cxGcStore cxOrphanRec =
        (.ok (cxHash cxOrphanRec), (putObjectE cxHash cxGcStore cxOrphanRec).2) ∧
      (cxHash cxOrphanRec = cxHash cxOrphanRec ∧
        (∀ d', d' ≠ cxHash cxOrphanRec →
          lookupKV (putObjectE cxHash cxGcStore cxOrphanRec).2.objects d' =
            lookupKV cxGcStore.objects d') ∧
        (putObjectE cxHash cxGcStore cxOrphanRec).2.snapRefs = cxGcStore.snapRefs) :=
  ⟨by decide,
    put_object_frame cxHash cxGcStore cxOrphanRec (cxHash cxOrphanRec) _ (by decide)⟩

theorem verifyObjectStructureE_error_invalid (v : Jx) (e : Err)
    (h : verifyObjectStructureE v = .error e) : ∃ m, e = Err.invalidObject m := by
  cases v with
  | obj kvs =>
    simp only [verifyObjectStructureE] at h
    split_ifs at h with h1 h2 h3
    · exact ⟨_, (Except.error.inj h).symm⟩
    · exact ⟨_, (Except.error.inj h).symm⟩
    · exact ⟨_, (Except.error.inj h).symm⟩
    · split at h
      · cases h
      · exact ⟨_, (Except.error.inj h).symm⟩
      · cases h
  | null => 
    simp only [verifyObjectStructureE] at h
    exact ⟨_, (Except.error.inj h).symm⟩
  | bool b => 
    simp only [verifyObjectStructureE] at h
    exact ⟨_, (Except.error.inj h).symm⟩
  | int n => 
    simp only [verifyObjectStructureE] at h
    exact ⟨_, (Except.error.inj h).symm⟩
  | str t => 
    simp only [verifyObjectStructureE] at h
    exact ⟨_, (Except.error.inj h).symm⟩
  | arr l => 
    simp only [verifyObjectStructureE] at h
    exact ⟨_, (Except.error.inj h).symm⟩

/-- C4 (amended). Behavior of `get_object` with verification, for digests of
shardable length: `NotFound` exactly when the file is absent; a present but
unparseable file raises `StorageError` (not `Corrupted`); a parseable but
structurally invalid record raises the `Invalid` structure error; a
structurally valid record whose recomputed hash differs from the digest
raises `Corrupted`; otherwise the record is returned. -/
theorem get_object_characterization (H : Jx → String) (s : Store) (h : String)
    (hl : 2 ≤ h.length) :
    (getObjectE H s h true = .error (.notFound h) ↔ lookupKV s.objects h = none) ∧
    (∀ b, lookupKV s.objects h = some (.raw b) →
      getObjectE H s h true = .error (.storageError "read_object")) ∧
    (∀ v e, lookupKV s.objects h = some (.json v) →
      verifyObjectStructureE v = .error e → getObjectE H s h true = .error e) ∧
    (∀ v, lookupKV s.objects h = some (.json v) →
      verifyObjectStructureE v = .ok () → H v ≠ h →
      getObjectE H s h true = .error (.corrupted h)) ∧
    (∀ v, lookupKV s.objects h = some (.json v) →
      verifyObjectStructureE v = .ok () → H v = h →
      getObjectE H s h true = .ok v) := by
  have hshard : shardOk h = true := by
    simp [shardOk]
    omega
  unfold getObjectE
  simp only [hshard, Bool.not_true, Bool.false_eq_true, if_false]
  refine ⟨?_, ?_, ?_, ?_, ?_⟩
  · cases hx : lookupKV s.objects h with
    | none => simp
    | some fb =>
      cases fb with
      | json v =>
        dsimp only
        cases hv : verifyObjectStructureE v with
        | error e =>
          simp only [if_true]
          constructor
          · intro he
            obtain ⟨m, hm⟩ := verifyObjectStructureE_error_invalid v e hv
            subst hm
            cases he
          · intro hc
            cases hc
        | ok u =>
          simp only [if_true]
          by_cases hH : H v = h
          · simp [hH]
          · simp [hH]
      | raw b => simp
  · intro b hx
    rw [hx]
  · intro v e hx hv
    rw [hx]
    simp [hv]
  · intro v hx hv hH
    rw [hx]
    simp [hv, hH]
  · intro v hx hv hH
    rw [hx]
    simp [hv, hH]

theorem get_object_characterization_witness :
    2 ≤ ("dd" : String).length ∧
    ((getObjectE cxHash cxRawStore "dd" true = .error (.notFound "dd") ↔
        lookupKV cxRawStore.objects "dd" = none) ∧
      (∀ b, lookupKV cxRawStore.objects "dd" = some (.raw b) →
        getObjectE cxHash cxRawStore "dd" true = .error (.storageError "read_object")) ∧
      (∀ v e, lookupKV cxRawStore.objects "dd" = some (.json v) →
        verifyObjectStructureE v = .error e →
        getObjectE cxHash cxRawStore "dd" true = .error e) ∧
      (∀ v, lookupKV cxRawStore.objects "dd" = some (.json v) →
        verifyObjectStructureE v = .ok () → cxHash v ≠ "dd" →
        getObjectE cxHash cxRawStore "dd" true = .error (.corrupted "dd")) ∧
      (∀ v, lookupKV cxRawStore.objects "dd" = some (.json v) →
        verifyObjectStructureE v = .ok () → cxHash v = "dd" →
        getObjectE cxHash cxRawStore "dd" true = .ok v)) :=
  ⟨by decide, get_object_characterization cxHash cxRawStore "dd" (by decide)⟩

theorem get_object_parse_error_counterexample :
    getObjectE cxHash cxRawStore "dd" true = .error (.storageError "read_object") ∧
    getObjectE cxHash cxRawStore "dd" true ≠ .error (.corrupted "dd") := by
  decide

/-- C5 (amended). `put_snapshot_ref(name, digest)` requires the target
object to exist, failing with `NotFound` (state unchanged) otherwise; when
the target exists it writes the digest over `snapshots/<name>` with a plain
truncating `write_text` — not the temp-file-then-rename protocol — so the
state visible after an interruption between the truncating open and the
write is an empty reference file rather than the previous content. -/
theorem put_snapshot_ref_characterization (s : Store) (name digest n : String)
    (hl : 2 ≤ digest.length) (hn : sanitizeName name = some n) :
    (lookupKV s.objects digest = none →
      putSnapshotRefE s name digest = (.error (.notFound digest), s)) ∧
    ((lookupKV s.objects digest).isSome →
      putSnapshotRefE s name digest =
        (.ok (), { s with snapRefs := setKV s.snapRefs n digest }) ∧
      putSnapshotRefCrash s name digest 1 =
        { s with snapRefs := setKV s.snapRefs n "" }) := by
  have hshard : shardOk digest = true := by
    simp [shardOk]
    omega
  unfold putSnapshotRefE putSnapshotRefCrash
  simp only [hshard, Bool.not_true, Bool.false_eq_true, if_false]
  constructor
  · intro hx
    simp [hx]
  · intro hx
    rw [Option.isSome_iff_exists] at hx
    obtain ⟨fb, hfb⟩ := hx
    simp [hfb, hn]

theorem put_snapshot_ref_characterization_witness :
    2 ≤ ("dd" : String).length ∧ sanitizeName "main" = some "main" ∧
    ((lookupKV cxRefStore.objects "dd" = none →
        putSnapshotRefE cxRefStore "main" "dd" = (.error (.notFound "dd"), cxRefStore)) ∧
      ((lookupKV cxRefStore.objects "dd").isSome →
        putSnapshotRefE cxRefStore "main" "dd" =
          (.ok (), { cxRefStore with snapRefs := setKV cxRefStore.snapRefs "main" "dd" }) ∧
        putSnapshotRefCrash cxRefStore "main" "dd" 1 =
          { cxRefStore with snapRefs := setKV cxRefStore.snapRefs "main" "" })) :=
  ⟨by decide, by decide,
    put_snapshot_ref_characterization cxRefStore "main" "dd" "main" (by decide) (by decide)⟩

theorem put_snapshot_ref_not_atomic_counterexample :
    lookupKV (putSnapshotRefCrash cxRefStore "main" "dd" 1).snapRefs "main" = some "" ∧
    lookupKV cxRefStore.snapRefs "main" = some "aa" ∧
    ("" : String) ≠ "aa" ∧ ("" : String) ≠ "dd" := by
  decide

theorem checkBundlesExistE_ok (s : Store) (hashes : List String)
    (hall : ∀ b ∈ hashes, (lookupKV s.objects b).isSome)
    (hlen : ∀ b ∈ hashes, 2 ≤ b.length) :
    checkBundlesExistE s hashes = .ok () := by
  induction hashes with
  | nil => rfl
  | cons b t ih =>
    have hshard : shardOk b = true := by
      have := hlen b (by simp)
      simp [shardOk]
      omega
    have hb := hall b (by simp)
    simp only [checkBundlesExistE, hasObjectE, hshard, Bool.not_true,
      Bool.false_eq_true, if_false, hb]
    exact ih (fun x hx => hall x (by simp [hx])) (fun x hx => hlen x (by simp [hx]))

theorem checkBundlesExistE_missing (s : Store) (hashes : List String)
    (hex : ∃ b ∈ hashes, lookupKV s.objects b = none)
    (hlen : ∀ b ∈ hashes, 2 ≤ b.length) :
    ∃ e, checkBundlesExistE s hashes = .error e := by
  induction hashes with
  | nil => obtain ⟨b, hb, _⟩ := hex; cases hb
  | cons b t ih =>
    have hshard : shardOk b = true := by
      have := hlen b (by simp)
      simp [shardOk]
      omega
    simp only [checkBundlesExistE, hasObjectE, hshard, Bool.not_true,
      Bool.false_eq_true, if_false]
    cases hb : lookupKV s.objects b with
    | none =>
      exact ⟨_, rfl⟩
    | some fb =>
      simp only [Option.isSome_some, if_true]
      obtain ⟨x, hx, hxn⟩ := hex
      rcases List.mem_cons.mp hx with hxb | hxt
      · subst hxb
        rw [hxn] at hb
        cases hb
      · exact ih ⟨x, hxt, hxn⟩ (fun y hy => hlen y (by simp [hy]))

/-- C6 (amended). `create_snapshot_from_bundles` requires every bundle
digest to exist — when one is absent the operation fails and the store is
unchanged — but does not consult the parent digest at all: with all bundles
present, for any parent value (present in the store or not) the snapshot
record is built and handed to `put_object`. -/
theorem create_snapshot_checks_bundles_not_parent (H : Jx → String) (s : Store)
    (hashes : List String) (parent : Option String) (md : Jx)
    (hlen : ∀ b ∈ hashes, 2 ≤ b.length) :
    ((∃ b ∈ hashes, lookupKV s.objects b = none) →
      ∃ e, createSnapshotFromBundlesE H s hashes parent md = (.error e, s)) ∧
    ((∀ b ∈ hashes, (lookupKV s.objects b).isSome) →
      createSnapshotFromBundlesE H s hashes parent md =
        putObjectE H s
          ((mkSnapshot (hashes.map Jx.str) (parent.map Jx.str) md).toDict)) := by
  constructor
  · intro hex
    obtain ⟨e, he⟩ := checkBundlesExistE_missing s hashes hex hlen
    exact ⟨e, by simp [createSnapshotFromBundlesE, he]⟩
  · intro hall
    simp [createSnapshotFromBundlesE, checkBundlesExistE_ok s hashes hall hlen]

theorem create_snapshot_checks_bundles_not_parent_witness :
    (∀ b ∈ ["bb"], 2 ≤ b.length) ∧
    (((∃ b ∈ ["bb"], lookupKV cxParentStore.objects b = none) →
        ∃ e, createSnapshotFromBundlesE cxHash cxParentStore ["bb"] (some "ee") .null =
          (.error e, cxParentStore)) ∧
      ((∀ b ∈ ["bb"], (lookupKV cxParentStore.objects b).isSome) →
        createSnapshotFromBundlesE cxHash cxParentStore ["bb"] (some "ee") .null =
          putObjectE cxHash cxParentStore
            ((mkSnapshot (["bb"].map Jx.str) ((some "ee").map Jx.str) .null).toDict))) :=
  ⟨by decide,
    create_snapshot_checks_bundles_not_parent cxHash cxParentStore ["bb"]
      (some "ee") .null (by decide)⟩

theorem create_snapshot_missing_parent_counterexample :
    (createSnapshotFromBundlesE cxHash cxParentStore ["bb"] (some "ee") .null).1.isOk = true ∧
    lookupKV cxParentStore.objects "ee" = none ∧
    (∃ d s1, createSnapshotFromBundlesE cxHash cxParentStore ["bb"] (some "ee") .null = (.ok d, s1) ∧
      lookupKV s1.objects d =
        some (.json ((mkSnapshot [.str "bb"] (some (.str "ee")) .null).toDict))) :=
  ⟨by decide, by decide,
    ⟨cxHash ((mkSnapshot [.str "bb"] (some (.str "ee")) .null).toDict),
      (createSnapshotFromBundlesE cxHash cxParentStore ["bb"] (some "ee") .null).2,
      by decide, by decide⟩⟩

mutual

/-- Well-formedness of a dynamic value as a Python object: every mapping in
it has pairwise distinct keys (Python dict construction cannot produce
duplicates). -/
def wfJ : Jx → Bool
  | .null => true
  | .bool _ => true
  | .int _ => true
  | .str _ => true
  | .arr l => wfL l
  | .obj kvs => decide ((kvs.map Prod.fst).Nodup) && wfKVs kvs

/-- Well-formedness of every element. -/
def wfL : List Jx → Bool
  | [] => true
  | x :: t => wfJ x && wfL t

/-- Well-formedness of every entry value. -/
def wfKVs : List (String × Jx) → Bool
  | [] => true
  | (_, v) :: t => wfJ v && wfKVs t

end

/-- Structural value equality of the specification: mappings compare
unordered (same key multiset, equal value at each shared key), sequences
compare ordered and pointwise. -/
inductive Jeq : Jx → Jx → Prop where
  | null : Jeq .null .null
  | bool (b : Bool) : Jeq (.bool b) (.bool b)
  | int (n : Int) : Jeq (.int n) (.int n)
  | str (s : String) : Jeq (.str s) (.str s)
  | arr {l₁ l₂ : List Jx} (hlen : l₁.length = l₂.length)
      (helem : ∀ i (h₁ : i < l₁.length) (h₂ : i < l₂.length),
        Jeq (l₁.get ⟨i, h₁⟩) (l₂.get ⟨i, h₂⟩)) :
      Jeq (.arr l₁) (.arr l₂)
  | obj {a b : List (String × Jx)}
      (hkeys : (a.map Prod.fst).Perm (b.map Prod.fst))
      (hvals : ∀ k v w, (k, v) ∈ a → (k, w) ∈ b → Jeq v w) :
      Jeq (.obj a) (.obj b)

theorem wfL_mem {l : List Jx} (h : wfL l = true) {x : Jx} (hx : x ∈ l) :
    wfJ x = true := by
  induction l with
  | nil => cases hx
  | cons a t ih =>
    simp only [wfL, Bool.and_eq_true] at h
    rcases List.mem_cons.mp hx with rfl | hm
    · exact h.1
    · exact ih h.2 hm

theorem wfKVs_mem {l : List (String × Jx)} (h : wfKVs l = true) {k : String}
    {v : Jx} (hv : (k, v) ∈ l) : wfJ v = true := by
  induction l with
  | nil => cases hv
  | cons p t ih =>
    obtain ⟨pk, pv⟩ := p
    simp only [wfKVs, Bool.and_eq_true] at h
    rcases List.mem_cons.mp hv with he | hm
    · injection he with h1 h2
      rw [h2]
      exact h.1
    · exact ih h.2 hm

theorem canonList_eq_map : ∀ l : List Jx, canonList l = l.map canonicalJson
  | [] => rfl
  | x :: t => by rw [canonList, List.map_cons, canonList_eq_map t]

theorem canonKVs_eq_map : ∀ l : List (String × Jx),
    canonKVs l = l.map (fun p => (p.1, canonicalJson p.2))
  | [] => rfl
  | (k, v) :: t => by rw [canonKVs, List.map_cons, canonKVs_eq_map t]

theorem canonKVs_keys : ∀ l : List (String × Jx),
    (canonKVs l).map Prod.fst = l.map Prod.fst
  | [] => rfl
  | (k, v) :: t => by simp [canonKVs, canonKVs_keys t]

theorem mem_canonKVs {l : List (String × Jx)} {k sv : String} :
    (k, sv) ∈ canonKVs l ↔ ∃ v, (k, v) ∈ l ∧ sv = canonicalJson v := by
  rw [canonKVs_eq_map]
  constructor
  · intro h
    obtain ⟨p, hp, he⟩ := List.mem_map.mp h
    injection he with h1 h2
    exact ⟨p.2, by rw [← h1]; simpa using hp, h2.symm⟩
  · rintro ⟨v, hv, rfl⟩
    exact List.mem_map.mpr ⟨(k, v), hv, rfl⟩

/-- Two key-sorted pair lists with distinct keys, the same key multiset and
agreeing values are equal. -/
theorem sorted_pairs_eq :
    ∀ l₁ l₂ : List (String × String),
      l₁.Pairwise keyLE → l₂.Pairwise keyLE →
      ((l₁.map Prod.fst).Nodup) →
      (l₁.map Prod.fst).Perm (l₂.map Prod.fst) →
      (∀ k x y, (k, x) ∈ l₁ → (k, y) ∈ l₂ → x = y) → l₁ = l₂
  | [], l₂, _, _, _, hperm, _ => by
    have h0 : l₂.map Prod.fst = [] := hperm.symm.eq_nil
    cases l₂ with
    | nil => rfl
    | cons p t => cases h0
  | (k₁, x₁) :: t₁, [], _, _, _, hperm, _ => by
    cases hperm.eq_nil
  | (k₁, x₁) :: t₁, (k₂, x₂) :: t₂, hs₁, hs₂, hnd, hperm, hagree => by
    have hk : k₁ = k₂ := by
      have h1mem' : k₁ ∈ List.map Prod.fst ((k₂, x₂) :: t₂) :=
        hperm.subset (by simp)
      have h2mem' : k₂ ∈ List.map Prod.fst ((k₁, x₁) :: t₁) :=
        hperm.symm.subset (by simp)
      have h1mem : k₁ ∈ k₂ :: t₂.map Prod.fst := by simpa using h1mem'
      have h2mem : k₂ ∈ k₁ :: t₁.map Prod.fst := by simpa using h2mem' 
      rcases List.mem_cons.mp h1mem with he | hm1
      · exact he
      · rcases List.mem_cons.mp h2mem with he | hm2
        · exact he.symm
        · -- k₁ appears in t₂ and k₂ in t₁: both directions of ≤, antisymm
          obtain ⟨p, hp, hpk⟩ := List.mem_map.mp hm1
          obtain ⟨q, hq, hqk⟩ := List.mem_map.mp hm2
          have hle₂ : strLeB k₂ k₁ = true := by
            have := (List.pairwise_cons.mp hs₂).1 p hp
            unfold keyLE at this
            rw [hpk] at this
            exact this
          have hle₁ : strLeB k₁ k₂ = true := by
            have := (List.pairwise_cons.mp hs₁).1 q hq
            unfold keyLE at this
            rw [hqk] at this
            exact this
          exact strLeB_antisymm hle₁ hle₂
    subst hk
    have hx : x₁ = x₂ := hagree k₁ x₁ x₂ (by simp) (by simp)
    subst hx
    have hnd' : (t₁.map Prod.fst).Nodup :=
      (List.nodup_cons.mp (by simpa using hnd)).2
    have hperm' : (t₁.map Prod.fst).Perm (t₂.map Prod.fst) := by
      have : (k₁ :: t₁.map Prod.fst).Perm (k₁ :: t₂.map Prod.fst) := by
        simpa using hperm
      exact this.cons_inv
    have htail : t₁ = t₂ :=
      sorted_pairs_eq t₁ t₂ (List.pairwise_cons.mp hs₁).2
        (List.pairwise_cons.mp hs₂).2 hnd' hperm'
        (fun k x y hx hy =>
          hagree k x y (List.mem_cons_of_mem _ hx) (List.mem_cons_of_mem _ hy))
    rw [htail]

theorem nodup_keys_val_eq {α : Type} {l : List (String × α)} 
    (hnd : (l.map Prod.fst).Nodup) {k : String} {v w : α} (hv : (k, v) ∈ l)
    (hw : (k, w) ∈ l) : v = w := by
  induction l with
  | nil => cases hv
  | cons p t ih =>
    simp only [List.map_cons, List.nodup_cons] at hnd
    rcases List.mem_cons.mp hv with he | hm
    · rcases List.mem_cons.mp hw with he' | hm'
      · rw [← he'] at he
        exact (Prod.ext_iff.mp he).2
      · exfalso
        apply hnd.1
        rw [← he]
        exact List.mem_map.mpr ⟨(k, w), hm', rfl⟩
    · rcases List.mem_cons.mp hw with he' | hm'
      · exfalso
        apply hnd.1
        rw [← he']
        exact List.mem_map.mpr ⟨(k, v), hm, rfl⟩
      · exact ih hnd.2 hm hm'

theorem jeq_refl : ∀ a : Jx, wfJ a = true → Jeq a a
  | .null, _ => .null
  | .bool b, _ => .bool b
  | .int n, _ => .int n
  | .str s, _ => .str s
  | .arr l, h =>
    .arr rfl (fun i h₁ _ =>
      jeq_refl (l.get ⟨i, h₁⟩)
        (wfL_mem (by simpa [wfJ] using h) (l.get_mem i h₁)))
  | .obj kvs, h => by
    have hnd : (kvs.map Prod.fst).Nodup := by
      simp only [wfJ, Bool.and_eq_true, decide_eq_true_eq] at h
      exact h.1
    have hw : wfKVs kvs = true := by
      simp only [wfJ, Bool.and_eq_true] at h
      exact h.2
    exact .obj (List.Perm.refl _) (fun k v w hv hww => by
      have hvw : v = w := nodup_keys_val_eq hnd hv hww
      subst hvw
      exact jeq_refl v (wfKVs_mem hw hv))
decreasing_by
  all_goals
    first
      | (have h1 := List.sizeOf_lt_of_mem (l.get_mem i h₁)
         simp only [Jx.arr.sizeOf_spec]
         omega)
      | (have h1 := List.sizeOf_lt_of_mem hv
         simp only [Jx.obj.sizeOf_spec, Prod.mk.sizeOf_spec] at h1 ⊢
         omega)

/-- Determinism of the canonical encoder over value-equal well-formed
records: the byte output depends only on the structural value. -/
theorem canonicalJson_of_jeq :
    ∀ {a b : Jx}, Jeq a b → wfJ a = true → wfJ b = true →
      canonicalJson a = canonicalJson b := by
  intro a b h
  induction h with
  | null => intro _ _; rfl
  | bool b => intro _ _; rfl
  | int n => intro _ _; rfl
  | str s => intro _ _; rfl
  | arr hlen helem ih =>
    intro wa wb
    rename_i l₁ l₂
    simp only [canonicalJson]
    have : canonList l₁ = canonList l₂ := by
      rw [canonList_eq_map, canonList_eq_map]
      apply List.ext_get (by simp [hlen])
      intro i h1 h2
      simp only [List.get_eq_getElem, List.getElem_map]
      exact ih i (by simpa using h1) (by simpa using h2)
        (wfL_mem (by simpa [wfJ] using wa) (l₁.get_mem _ _))
        (wfL_mem (by simpa [wfJ] using wb) (l₂.get_mem _ _))
    rw [this]
  | obj hkeys hvals ih =>
    intro wa wb
    rename_i a' b'
    have hnda : (a'.map Prod.fst).Nodup := by
      simp only [wfJ, Bool.and_eq_true, decide_eq_true_eq] at wa
      exact wa.1
    have hwa : wfKVs a' = true := by
      simp only [wfJ, Bool.and_eq_true] at wa
      exact wa.2
    have hwb : wfKVs b' = true := by
      simp only [wfJ, Bool.and_eq_true] at wb
      exact wb.2
    simp only [canonicalJson]
    have hsorted :
        (canonKVs a').insertionSort keyLE = (canonKVs b').insertionSort keyLE := by
      apply sorted_pairs_eq
      · exact List.sorted_insertionSort keyLE (canonKVs a')
      · exact List.sorted_insertionSort keyLE (canonKVs b')
      · have hp : (((canonKVs a').insertionSort keyLE).map Prod.fst).Perm
            (a'.map Prod.fst) := by
          rw [← canonKVs_keys a']
          exact (List.perm_insertionSort keyLE (canonKVs a')).map Prod.fst
        exact hp.nodup_iff.mpr hnda
      · have hpa : (((canonKVs a').insertionSort keyLE).map Prod.fst).Perm
            (a'.map Prod.fst) := by
          rw [← canonKVs_keys a']
          exact (List.perm_insertionSort keyLE (canonKVs a')).map Prod.fst
        have hpb : (((canonKVs b').insertionSort keyLE).map Prod.fst).Perm
            (b'.map Prod.fst) := by
          rw [← canonKVs_keys b']
          exact (List.perm_insertionSort keyLE (canonKVs b')).map Prod.fst
        exact (hpa.trans hkeys).trans hpb.symm
      · intro k x y hx hy
        have hx' : (k, x) ∈ canonKVs a' :=
          (List.perm_insertionSort keyLE (canonKVs a')).subset hx
        have hy' : (k, y) ∈ canonKVs b' :=
          (List.perm_insertionSort keyLE (canonKVs b')).subset hy
        obtain ⟨v, hv, rfl⟩ := mem_canonKVs.mp hx'
        obtain ⟨w, hw, rfl⟩ := mem_canonKVs.mp hy'
        exact ih k v w hv hw (wfKVs_mem hwa hv) (wfKVs_mem hwb hw)
    rw [hsorted]

/-- The two S1 mappings, constructed in different orders. -/
def cxMapA : Jx := .obj [("b", .int 2), ("a", .int 1), ("c", .int 3)]

/-- The same mapping as `cxMapA`, built in another insertion order. -/
def cxMapB : Jx := .obj [("a", .int 1), ("c", .int 3), ("b", .int 2)]

theorem jeq_cxMaps : Jeq cxMapA cxMapB := by
  apply Jeq.obj
  · decide
  · intro k v w hv hw
    simp only [cxMapA, cxMapB, List.mem_cons, List.not_mem_nil, or_false] at hv hw
    rcases hv with h1 | h1 | h1 <;> rcases hw with h2 | h2 | h2 <;>
      (injection h1 with hk1 hv1; injection h2 with hk2 hv2;
       subst hk1; subst hv1; subst hv2) <;>
      first
        | (exact absurd hk2 (by decide))
        | (exact Jeq.int _)

/-- C8. Deterministic canonical encoding: value-equal well-formed records
(mappings compared unordered, sequences ordered) produce byte-identical
canonical JSON; in particular the mapping built as b,a,c and the mapping
built as a,c,b encode to exactly the same bytes, the sorted form. -/
theorem canonical_encoding_deterministic :
    (∀ a b : Jx, Jeq a b → wfJ a = true → wfJ b = true →
      canonicalJson a = canonicalJson b) ∧
    canonicalJson cxMapA = canonicalJson cxMapB ∧
    canonicalJson cxMapA = "\x7b\"a\":1,\"b\":2,\"c\":3\x7d" :=
  ⟨fun _ _ h wa wb => canonicalJson_of_jeq h wa wb,
    canonicalJson_of_jeq jeq_cxMaps (by decide) (by decide),
    by decide⟩

theorem canonical_encoding_deterministic_witness :
    Jeq cxMapA cxMapB ∧ wfJ cxMapA = true ∧ wfJ cxMapB = true ∧
    canonicalJson cxMapA = canonicalJson cxMapB :=
  ⟨jeq_cxMaps, by decide, by decide,
    canonical_encoding_deterministic.1 cxMapA cxMapB jeq_cxMaps
      (by decide) (by decide)⟩

theorem charToSix_sixToChar : ∀ v : Fin 64, charToSix (sixToChar v.val) = some v.val := by
  decide

theorem sixToChar_ne_pad : ∀ v : Fin 64, sixToChar v.val ≠ '=' := by
  decide

theorem charToSix_sixToChar' {v : Nat} (h : v < 64) :
    charToSix (sixToChar v) = some v := charToSix_sixToChar ⟨v, h⟩

theorem sixToChar_ne_pad' {v : Nat} (h : v < 64) : sixToChar v ≠ '=' :=
  sixToChar_ne_pad ⟨v, h⟩

/-- Base64 decode inverts encode on byte lists. -/
theorem b64_roundtrip :
    ∀ l : List Nat, (∀ b ∈ l, b < 256) → b64decodeL (b64encodeL l) = some l
  | [], _ => rfl
  | [a], h => by
    have ha : a < 256 := h a (by simp)
    have h1 : a / 4 < 64 := by omega
    have h2 : a % 4 * 16 < 64 := by omega
    simp only [b64encodeL, b64decodeL, charToSix_sixToChar' h1,
      charToSix_sixToChar' h2]
    simp only [List.isEmpty_nil, Bool.and_true, Bool.and_self, if_pos rfl]
    have : a / 4 * 4 + a % 4 * 16 / 16 = a := by omega
    rw [if_pos (by decide)]
    rw [this]
  | [a, b], h => by
    have ha : a < 256 := h a (by simp)
    have hb : b < 256 := h b (by simp)
    have h1 : a / 4 < 64 := by omega
    have h2 : a % 4 * 16 + b / 16 < 64 := by omega
    have h3 : b % 16 * 4 < 64 := by omega
    simp only [b64encodeL, b64decodeL, charToSix_sixToChar' h1,
      charToSix_sixToChar' h2, charToSix_sixToChar' h3]
    rw [if_neg (by simp [sixToChar_ne_pad' h3]), if_pos (by decide)]
    have e1 : a / 4 * 4 + (a % 4 * 16 + b / 16) / 16 = a := by omega
    have e2 : (a % 4 * 16 + b / 16) % 16 * 16 + b % 16 * 4 / 4 = b := by omega
    rw [e1, e2]
  | a :: b :: c :: rest, h => by
    have ha : a < 256 := h a (by simp)
    have hb : b < 256 := h b (by simp)
    have hc : c < 256 := h c (by simp)
    have h1 : a / 4 < 64 := by omega
    have h2 : a % 4 * 16 + b / 16 < 64 := by omega
    have h3 : b % 16 * 4 + c / 64 < 64 := by omega
    have h4 : c % 64 < 64 := by omega
    have ih := b64_roundtrip rest (fun x hx => h x (by simp [hx]))
    simp only [b64encodeL, b64decodeL, charToSix_sixToChar' h1,
      charToSix_sixToChar' h2, charToSix_sixToChar' h3,
      charToSix_sixToChar' h4, ih]
    rw [if_neg (by simp [sixToChar_ne_pad' h3]),
      if_neg (by simp [sixToChar_ne_pad' h4])]
    have e1 : a / 4 * 4 + (a % 4 * 16 + b / 16) / 16 = a := by omega
    have e2 : (a % 4 * 16 + b / 16) % 16 * 16 + (b % 16 * 4 + c / 64) / 4 = b := by
      omega
    have e3 : (b % 16 * 4 + c / 64) % 4 * 64 + c % 64 = c := by omega
    rw [e1, e2, e3]

theorem jTruthy_norm (md : Jx) :
    jTruthy (if jTruthy md then md else .obj []) = jTruthy md := by
  by_cases h : jTruthy md
  · rw [if_pos h]
  · rw [if_neg h]
    simp only [Bool.not_eq_true] at h
    rw [h]
    rfl

theorem snapshot_roundtrip (bl : List Jx) (p : Option Jx) (md : Jx)
    (hp : p = none ∨ ∃ pj, p = some pj ∧ jTruthy pj = true) :
    SnapshotM.fromDict ((mkSnapshot bl p md).toDict) = .ok (mkSnapshot bl p md) := by
  have hnorm := jTruthy_norm md
  unfold mkSnapshot SnapshotM.toDict SnapshotM.fromDict
  rcases hp with rfl | ⟨pj, rfl, hpt⟩
  · by_cases hmd : jTruthy md <;> simp [lookupKV, hmd, hnorm, mkSnapshot]
  · by_cases hmd : jTruthy md <;> simp [lookupKV, hmd, hnorm, hpt, mkSnapshot]

theorem bundle_roundtrip (bd md : Jx) :
    BundleM.fromDict ((mkBundle bd md).toDict) = .ok (mkBundle bd md) := by
  have hnorm := jTruthy_norm md
  unfold mkBundle BundleM.toDict BundleM.fromDict
  by_cases hmd : jTruthy md <;> simp [lookupKV, hmd, hnorm, mkBundle]

theorem blob_roundtrip (data : List Nat) (md : Jx) (hdata : ∀ b ∈ data, b < 256) :
    BlobM.fromDict ((mkBlob data md).toDict) = .ok (mkBlob data md) := by
  have hnorm := jTruthy_norm md
  unfold mkBlob BlobM.toDict BlobM.fromDict
  have hb : b64decodeL (b64encodeL data) = some data := b64_roundtrip data hdata
  by_cases hmd : jTruthy md <;> simp [lookupKV, hmd, hnorm, hb, mkBlob]

theorem tree_roundtrip (ch : List Jx) (md : Jx) :
    TreeM.fromDict ((mkTree ch md).toDict) = .ok (mkTree ch md) := by
  have hnorm := jTruthy_norm md
  unfold mkTree TreeM.toDict TreeM.fromDict
  by_cases hmd : jTruthy md <;> simp [lookupKV, hmd, hnorm, mkTree]

/-- C9 (amended). Encode/decode round-trip for every object kind: for blob
byte lists, arbitrary bundle payloads, trees, and snapshots whose parent
argument is either absent or truthy, `K.from_dict(K.to_dict(v))`
reconstructs the value exactly. (A falsy present parent — such as the empty
string — is dropped by `to_dict` and decodes as absent.) -/
theorem model_roundtrip :
    (∀ (data : List Nat) (md : Jx), (∀ b ∈ data, b < 256) →
      BlobM.fromDict ((mkBlob data md).toDict) = .ok (mkBlob data md)) ∧
    (∀ bd md : Jx, BundleM.fromDict ((mkBundle bd md).toDict) = .ok (mkBundle bd md)) ∧
    (∀ (ch : List Jx) (md : Jx),
      TreeM.fromDict ((mkTree ch md).toDict) = .ok (mkTree ch md)) ∧
    (∀ (bl : List Jx) (p : Option Jx) (md : Jx),
      (p = none ∨ ∃ pj, p = some pj ∧ jTruthy pj = true) →
      SnapshotM.fromDict ((mkSnapshot bl p md).toDict) = .ok (mkSnapshot bl p md)) :=
  ⟨fun data md h => blob_roundtrip data md h,
    bundle_roundtrip, tree_roundtrip,
    fun bl p md hp => snapshot_roundtrip bl p md hp⟩

theorem model_roundtrip_witness :
    (∀ b ∈ [104, 105], b < 256) ∧
    ((some (Jx.str "aa") = none ∨
        ∃ pj, some (Jx.str "aa") = some pj ∧ jTruthy pj = true)) ∧
    BlobM.fromDict ((mkBlob [104, 105] (.obj [("k", .int 1)])).toDict) =
      .ok (mkBlob [104, 105] (.obj [("k", .int 1)])) ∧
    BundleM.fromDict ((mkBundle (.obj [("sequence", .int 1)]) .null).toDict) =
      .ok (mkBundle (.obj [("sequence", .int 1)]) .null) ∧
    TreeM.fromDict ((mkTree [.str "bb"] .null).toDict) =
      .ok (mkTree [.str "bb"] .null) ∧
    SnapshotM.fromDict ((mkSnapshot [.str "bb"] (some (.str "aa")) .null).toDict) =
      .ok (mkSnapshot [.str "bb"] (some (.str "aa")) .null) :=
  ⟨by decide, Or.inr ⟨.str "aa", rfl, by decide⟩,
    model_roundtrip.1 [104, 105] (.obj [("k", .int 1)]) (by decide),
    model_roundtrip.2.1 (.obj [("sequence", .int 1)]) .null,
    model_roundtrip.2.2.1 [.str "bb"] .null,
    model_roundtrip.2.2.2 [.str "bb"] (some (.str "aa")) .null
      (Or.inr ⟨.str "aa", rfl, by decide⟩)⟩

theorem snapshot_roundtrip_counterexample :
    SnapshotM.fromDict ((mkSnapshot [] (some (.str "")) (.obj [])).toDict) =
      .ok (mkSnapshot [] none (.obj [])) ∧
    mkSnapshot [] none (.obj []) ≠ mkSnapshot [] (some (.str "")) (.obj []) := by
  decide

theorem vsrF_valid_iff (H : Jx → String) (s : Store) :
    ∀ (fuel : Nat) (c : VCall) (res : (Bool × List String) × List String),
      vsrF H s fuel c = .ok res → (res.1.1 = true ↔ res.1.2 = []) := by
  intro fuel
  induction fuel with
  | zero =>
    intro c res h
    cases h
  | succ n ih =>
    intro c res h
    cases c with
    | node h' visited =>
      simp only [vsrF] at h
      split at h
      · cases h
        simp
      · split at h
        · cases h
          simp
        · split at h
          · cases h
            simp
          · split at h
            · cases h
              simp
            · split at h
              · cases h
                simp
              · split at h
                · cases h
                · split at h
                  · cases h
                  · cases h
                    simp
                  · exact ih _ _ h
    | rloop refs errs visited =>
      cases refs with
      | nil =>
        simp only [vsrF] at h
        cases h
        simp [List.isEmpty_iff]
      | cons r rest =>
        simp only [vsrF] at h
        split at h
        · cases h
          simp
        · split at h
          · cases h
            simp
          · split at h
            · cases h
              simp
            · split at h
              · cases h
                simp
              · split at h
                · split at h
                  · cases h
                    simp
                  · split at h
                    · exact ih _ _ h
                    · exact ih _ _ h
                · exact ih _ _ h

theorem vsrF_rloop_abort (H : Jx → String) (s : Store) (fuel : Nat)
    (rh : String) (rest : List GRef) (errs visited : List String) (e : Err)
    (hload : getObjectE H s rh false = .error e) :
    vsrF H s (fuel + 1) (.rloop (.s rh :: rest) errs visited) =
      .ok ((false, errs ++ ["Failed to verify reference " ++ rh]), visited) := by
  simp only [vsrF, hload]

theorem vsrF_rloop_subfail_continues (H : Jx → String) (s : Store) (fuel : Nat)
    (rh : String) (rest : List GRef) (errs visited : List String) (rv : Jx)
    (subErrs visited' : List String)
    (hload : getObjectE H s rh false = .ok rv)
    (hst : verifyObjectStructureE rv = .ok ())
    (hh : H rv = rh) (hty : jGet rv "type" = some (.str "snapshot"))
    (hrec : vsrF H s fuel (.node rh visited) = .ok ((false, subErrs), visited')) :
    vsrF H s (fuel + 1) (.rloop (.s rh :: rest) errs visited) =
      vsrF H s fuel (.rloop rest (errs ++ subErrs) visited') := by
  simp only [vsrF, hload, hst, hh, hty, hrec, ne_eq, not_true_eq_false,
    if_false, if_true, ite_self]
  simp

/-- Sub-snapshot record referencing a missing bundle, for the verification
witness. -/
def cxSubSnap : Jx :=
  .obj [("type", .str "snapshot"), ("content", .obj [("bundles", .arr [.str "uu"])])]

/-- Hash stand-in for the sub-snapshot store. -/
def cxSubH : Jx → String := fun v => if v = cxSubSnap then "tt" else "zz"

/-- Store holding only the sub-snapshot. -/
def cxSubStore : Store := ⟨[("tt", .json cxSubSnap)], []⟩

/-- C3 (amended). During recursive snapshot verification errors accumulate
into a list and every returned result satisfies `valid = errors.is_empty()`;
a failed recursive verification of a referenced sub-snapshot extends the
error list and verification continues with the remaining sibling references,
but a load failure or corruption of a directly referenced object appends one
error and returns immediately, leaving the remaining siblings at that level
unexamined. -/
theorem verify_snapshot_error_accumulation :
    (∀ (H : Jx → String) (s : Store) (fuel : Nat) (c : VCall)
        (res : (Bool × List String) × List String),
      vsrF H s fuel c = .ok res → (res.1.1 = true ↔ res.1.2 = [])) ∧
    (∀ (H : Jx → String) (s : Store) (fuel : Nat) (rh : String)
        (rest : List GRef) (errs visited : List String) (e : Err),
      getObjectE H s rh false = .error e →
      vsrF H s (fuel + 1) (.rloop (.s rh :: rest) errs visited) =
        .ok ((false, errs ++ ["Failed to verify reference " ++ rh]), visited)) ∧
    (∀ (H : Jx → String) (s : Store) (fuel : Nat) (rh : String)
        (rest : List GRef) (errs visited : List String) (rv : Jx)
        (subErrs visited' : List String),
      getObjectE H s rh false = .ok rv → verifyObjectStructureE rv = .ok () →
      H rv = rh → jGet rv "type" = some (.str "snapshot") →
      vsrF H s fuel (.node rh visited) = .ok ((false, subErrs), visited') →
      vsrF H s (fuel + 1) (.rloop (.s rh :: rest) errs visited) =
        vsrF H s fuel (.rloop rest (errs ++ subErrs) visited')) :=
  ⟨fun H s fuel c res h => vsrF_valid_iff H s fuel c res h,
    fun H s fuel rh rest errs visited e h =>
      vsrF_rloop_abort H s fuel rh rest errs visited e h,
    fun H s fuel rh rest errs visited rv subErrs visited' h1 h2 h3 h4 h5 =>
      vsrF_rloop_subfail_continues H s fuel rh rest errs visited rv subErrs
        visited' h1 h2 h3 h4 h5⟩

theorem verify_snapshot_error_accumulation_witness :
    engineVerifySnapshot cxVH cxVStore "ss" = .ok (false, ["Failed to verify reference b1"]) ∧
    ((false : Bool) = true ↔ (["Failed to verify reference b1"] : List String) = []) ∧
    getObjectE cxVH cxVStore "b1" false = .error (.storageError "read_object") ∧
    vsrF cxVH cxVStore 4 (.rloop [.s "b1", .s "b2"] [] ["ss"]) =
      .ok ((false, [] ++ ["Failed to verify reference " ++ "b1"]), ["ss"]) ∧
    getObjectE cxSubH cxSubStore "tt" false = .ok cxSubSnap ∧
    vsrF cxSubH cxSubStore 3 (.node "tt" ["ss"]) =
      .ok ((false, ["Object tt references missing object uu"]), ["ss", "tt"]) ∧
    vsrF cxSubH cxSubStore 4 (.rloop [.s "tt"] [] ["ss"]) =
      vsrF cxSubH cxSubStore 3
        (.rloop [] ([] ++ ["Object tt references missing object uu"]) ["ss", "tt"]) :=
  ⟨by decide,
    verify_snapshot_error_accumulation.1 cxVH cxVStore (vsrFuel cxVStore)
      (.node "ss" []) ((false, ["Failed to verify reference b1"]), ["ss"])
      (by decide),
    by decide,
    verify_snapshot_error_accumulation.2.1 cxVH cxVStore 3 "b1" [.s "b2"] [] ["ss"]
      (.storageError "read_object") (by decide),
    by decide,
    by decide,
    verify_snapshot_error_accumulation.2.2 cxSubH cxSubStore 3 "tt" [] [] ["ss"]
      cxSubSnap ["Object tt references missing object uu"] ["ss", "tt"]
      (by decide) (by decide) (by decide) (by decide) (by decide)⟩

theorem verify_sibling_abort_counterexample :
    engineVerifySnapshot cxVH cxVStore "ss" =
      .ok (false, ["Failed to verify reference b1"]) ∧
    (engineVerifySnapshot cxVH cxVStore "ss").map (fun r => r.2.length) = .ok 1 := by
  decide

/-- One parent step of the chain walk: `x` is a string digest whose stored
record loads with verification and parses as a snapshot whose parent is
`y`. -/
def chainLink (H : Jx → String) (s : Store) (x y : Jx) : Prop :=
  ∃ xs od sn, x = .str xs ∧ getObjectE H s xs true = .ok od ∧
    SnapshotM.fromDict od = .ok sn ∧ sn.parent = some y

theorem gscLoop_ok_spec (H : Jx → String) (s : Store) :
    ∀ (fuel : Nat) (chain visited : List Jx) (cur : Option Jx) (L : List Jx),
      gscLoop H s fuel chain visited cur = .ok L →
      List.Chain' (chainLink H s) chain →
      (∀ c, cur = some c → ∀ cl, chain.getLast? = some cl → chainLink H s cl c) →
      ∃ ext, L = (chain ++ ext).reverse ∧
        List.Chain' (chainLink H s) (chain ++ ext) ∧
        ((ext = [] ∧ (cur = none ∨ ∃ c, cur = some c ∧ jTruthy c = false)) ∨
          ∃ c ext', cur = some c ∧ ext = c :: ext') := by
  intro fuel
  induction fuel with
  | zero =>
    intro chain visited cur L h
    cases h
  | succ n ih =>
    intro chain visited cur L h hchain hlink
    cases cur with
    | none =>
      simp only [gscLoop] at h
      cases h
      exact ⟨[], by simp, by simpa using hchain, Or.inl ⟨rfl, Or.inl rfl⟩⟩
    | some c =>
      simp only [gscLoop] at h
      by_cases ht : jTruthy c
      · rw [if_neg (by simp [ht])] at h
        by_cases hv : c ∈ visited
        · rw [if_pos hv] at h
          cases h
        · rw [if_neg hv] at h
          cases c with
          | str cs =>
            dsimp only at h
            cases hload : getObjectE H s cs true with
            | error e =>
              rw [hload] at h
              cases h
            | ok od =>
              rw [hload] at h
              dsimp only at h
              cases hfd : SnapshotM.fromDict od with
              | error m =>
                rw [hfd] at h
                cases h
              | ok sn =>
                rw [hfd] at h
                dsimp only at h
                have hchain' : List.Chain' (chainLink H s) (chain ++ [.str cs]) := by
                  rw [List.chain'_append]
                  refine ⟨hchain, List.chain'_singleton _, ?_⟩
                  intro x hx y hy
                  simp only [List.head?_cons, Option.mem_def, Option.some.injEq] at hy
                  subst hy
                  exact hlink _ rfl x hx
                have hlink' : ∀ c', sn.parent = some c' →
                    ∀ cl, (chain ++ [Jx.str cs]).getLast? = some cl →
                      chainLink H s cl c' := by
                  intro c' hc' cl hcl
                  rw [List.getLast?_concat] at hcl
                  injection hcl with hcl'
                  subst hcl'
                  exact ⟨cs, od, sn, rfl, hload, hfd, hc'⟩
                obtain ⟨ext', hL, hch, _⟩ :=
                  ih (chain ++ [.str cs]) (visited ++ [.str cs]) sn.parent L h
                    hchain' hlink'
                refine ⟨.str cs :: ext', ?_, ?_, Or.inr ⟨.str cs, ext', rfl, rfl⟩⟩
                · rw [hL, List.append_assoc]
                  rfl
                · rw [List.append_assoc] at hch
                  exact hch
          | null => cases ht
          | bool b =>
            cases b
            · cases ht
            · dsimp only at h
              cases h
          | int m =>
            dsimp only at h
            cases h
          | arr l =>
            dsimp only at h
            cases h
          | obj kvs =>
            dsimp only at h
            cases h
      · simp only [Bool.not_eq_true] at ht
        rw [if_pos (by simp [ht])] at h
        cases h
        exact ⟨[], by simp, by simpa using hchain,
          Or.inl ⟨rfl, Or.inr ⟨c, rfl, ht⟩⟩⟩

theorem gscLoop_revisit (H : Jx → String) (s : Store) (fuel : Nat)
    (chain visited : List Jx) (c : Jx) (ht : jTruthy c = true)
    (hv : c ∈ visited) :
    gscLoop H s (fuel + 1) chain visited (some c) =
      .error (.invalidObject "Cycle detected in snapshot chain") := by
  simp only [gscLoop, ht, Bool.not_true, Bool.false_eq_true, if_false, hv,
    if_pos]

theorem getObjectE_error_shape (H : Jx → String) (s : Store) (h : String)
    (verify : Bool) (e : Err) (heq : getObjectE H s h verify = .error e) :
    (∃ m, e = .valueError m) ∨ e = .notFound h ∨ (∃ op, e = .storageError op) ∨
      (∃ m, e = .invalidObject m) ∨ e = .corrupted h := by
  unfold getObjectE at heq
  split at heq
  · exact Or.inl ⟨_, (Except.error.inj heq).symm⟩
  · split at heq
    · exact Or.inr (Or.inl (Except.error.inj heq).symm)
    · exact Or.inr (Or.inr (Or.inl ⟨_, (Except.error.inj heq).symm⟩))
    · split at heq
      · cases hv : verifyObjectStructureE _ with
        | error e' =>
          rw [hv] at heq
          obtain ⟨m, hm⟩ := verifyObjectStructureE_error_invalid _ e' hv
          dsimp only at heq
          injection heq with heq'
          exact Or.inr (Or.inr (Or.inr (Or.inl ⟨m, by rw [← heq', hm]⟩)))
        | ok u =>
          rw [hv] at heq
          dsimp only at heq
          split at heq
          · cases heq
          · exact Or.inr (Or.inr (Or.inr (Or.inr (Except.error.inj heq).symm)))
      · cases heq

theorem gscLoop_ne_invalidReference (H : Jx → String) (s : Store) :
    ∀ (fuel : Nat) (chain visited : List Jx) (cur : Option Jx) (r : String),
      gscLoop H s fuel chain visited cur ≠ .error (.invalidReference r) := by
  intro fuel
  induction fuel with
  | zero =>
    intro chain visited cur r h
    cases h
  | succ n ih =>
    intro chain visited cur r h
    cases cur with
    | none =>
      simp only [gscLoop] at h
      cases h
    | some c =>
      simp only [gscLoop] at h
      split at h
      · cases h
      · split at h
        · cases h
        · split at h
          · split at h
            · rename_i e heq
              rcases getObjectE_error_shape H s _ true e heq with
                ⟨m, rfl⟩ | rfl | ⟨op, rfl⟩ | ⟨m, rfl⟩ | rfl <;> cases h
            · split at h
              · cases h
              · exact ih _ _ _ r h
          · cases h

/-- C7 (amended). The snapshot-chain walk raises `InvalidObjectError` — not
`InvalidReferenceError`, which no branch of it can produce — as soon as the
current digest is one already visited; and on a successful walk from a
non-empty digest it returns a non-empty chain in root-first parent order
whose last element is the argument digest. -/
theorem get_snapshot_chain_characterization :
    (∀ (H : Jx → String) (s : Store) (fuel : Nat) (chain visited : List Jx)
        (c : Jx), jTruthy c = true → c ∈ visited →
      gscLoop H s (fuel + 1) chain visited (some c) =
        .error (.invalidObject "Cycle detected in snapshot chain")) ∧
    (∀ (H : Jx → String) (s : Store) (h0 : String) (r : String),
      getSnapshotChainE H s h0 ≠ .error (.invalidReference r)) ∧
    (∀ (H : Jx → String) (s : Store) (h0 : String) (L : List Jx), h0 ≠ "" →
      getSnapshotChainE H s h0 = .ok L →
      L ≠ [] ∧ L.getLast? = some (.str h0) ∧
        List.Chain' (fun a b => chainLink H s b a) L) := by
  refine ⟨gscLoop_revisit, fun H s h0 r => gscLoop_ne_invalidReference H s _ _ _ _ r, ?_⟩
  intro H s h0 L hne hok
  unfold getSnapshotChainE at hok
  obtain ⟨ext, hL, hch, hdis⟩ :=
    gscLoop_ok_spec H s (s.objects.length + 2) [] [] (some (.str h0)) L hok
      (List.chain'_nil) (by intro c hc cl hcl; cases hcl)
  rcases hdis with ⟨hext, hwhy⟩ | ⟨c, ext', hc, hext⟩
  · rcases hwhy with hnone | ⟨c, hc, hfalse⟩
    · cases hnone
    · injection hc with hc'
      subst hc'
      simp [jTruthy, hne] at hfalse
  · subst hext
    injection hc with hc'
    subst hc'
    simp only [List.nil_append] at hL hch
    subst hL
    refine ⟨by simp, ?_, ?_⟩
    · rw [List.getLast?_reverse]
      rfl
    · rw [List.chain'_reverse]
      exact hch

theorem get_snapshot_chain_characterization_witness :
    jTruthy (Jx.str "aa") = true ∧ (Jx.str "aa") ∈ [Jx.str "aa"] ∧
    gscLoop cxCyH cxCyStore 3 [] [Jx.str "aa"] (some (.str "aa")) =
      .error (.invalidObject "Cycle detected in snapshot chain") ∧
    getSnapshotChainE cxAcyH cxAcyStore "bb" ≠
      .error (.invalidReference "anything") ∧
    ("bb" : String) ≠ "" ∧
    getSnapshotChainE cxAcyH cxAcyStore "bb" = .ok [.str "aa", .str "bb"] ∧
    ([Jx.str "aa", Jx.str "bb"] ≠ ([] : List Jx) ∧
      ([Jx.str "aa", Jx.str "bb"] : List Jx).getLast? = some (.str "bb") ∧
      List.Chain' (fun a b => chainLink cxAcyH cxAcyStore b a)
        [Jx.str "aa", Jx.str "bb"]) :=
  ⟨by decide, by decide,
    get_snapshot_chain_characterization.1 cxCyH cxCyStore 2 [] [Jx.str "aa"]
      (.str "aa") (by decide) (by decide),
    get_snapshot_chain_characterization.2.1 cxAcyH cxAcyStore "bb" "anything",
    by decide, by decide,
    get_snapshot_chain_characterization.2.2 cxAcyH cxAcyStore "bb"
      [.str "aa", .str "bb"] (by decide) (by decide)⟩

theorem snapshot_chain_cycle_counterexample :
    getSnapshotChainE cxCyH cxCyStore "aa" =
      .error (.invalidObject "Cycle detected in snapshot chain") ∧
    getSnapshotChainE cxCyH cxCyStore "aa" ≠
      .error (.invalidReference "Cycle detected in snapshot chain") := by
  decide

theorem markFuel_mono (s : Store) :
    ∀ (fuel : Nat) (V : List String) (Q : List GRef) (R : List String),
      markFuel s fuel V Q = some R → ∀ x ∈ V, x ∈ R := by
  intro fuel
  induction fuel with
  | zero =>
    intro V Q R h
    cases h
  | succ n ih =>
    intro V Q R h x hx
    cases Q with
    | nil =>
      simp only [markFuel] at h
      injection h with h'
      rw [← h']
      exact hx
    | cons r q =>
      cases r with
      | other =>
        simp only [markFuel] at h
        cases h
      | s h₀ =>
        simp only [markFuel] at h
        split at h
        · exact ih V q R h x hx
        · split at h
          · cases h
          · exact ih V q R h x hx
          · split at h
            · exact ih (V ++ [h₀]) q R h x (by simp [hx])
            · split at h
              · exact ih (V ++ [h₀]) q R h x (by simp [hx])
              · exact ih (V ++ [h₀]) _ R h x (by simp [hx])

theorem markFuel_queue_marked (s : Store) :
    ∀ (fuel : Nat) (V : List String) (Q : List GRef) (R : List String),
      markFuel s fuel V Q = some R → ∀ h, GRef.s h ∈ Q →
        (lookupKV s.objects h).isSome → h ∈ R := by
  intro fuel
  induction fuel with
  | zero =>
    intro V Q R hm
    cases hm
  | succ n ih =>
    intro V Q R hm h hq hpres
    cases Q with
    | nil => cases hq
    | cons r q =>
      cases r with
      | other =>
        simp only [markFuel] at hm
        cases hm
      | s h₀ =>
        simp only [markFuel] at hm
        rcases List.mem_cons.mp hq with he | hq'
        · -- h is the popped element
          injection he with he'
          subst he'
          split at hm
          · exact markFuel_mono s n V q R hm h (by assumption)
          · split at hm
            · cases hm
            · -- gcExists = some false: contradicts presence
              rename_i hex
              simp only [gcExists] at hex
              split at hex
              · cases hex
              · injection hex with hex'
                rw [hpres] at hex'
                cases hex'
            · split at hm
              · exact markFuel_mono s n (V ++ [h]) q R hm h (by simp)
              · split at hm
                · exact markFuel_mono s n (V ++ [h]) q R hm h (by simp)
                · exact markFuel_mono s n (V ++ [h]) _ R hm h (by simp)
        · -- h is elsewhere in the queue
          split at hm
          · exact ih V q R hm h hq' hpres
          · split at hm
            · cases hm
            · exact ih V q R hm h hq' hpres
            · split at hm
              · exact ih (V ++ [h₀]) q R hm h hq' hpres
              · split at hm
                · exact ih (V ++ [h₀]) q R hm h hq' hpres
                · exact ih (V ++ [h₀]) _ R hm h (by simp [hq']) hpres

theorem markFuel_closed (s : Store) :
    ∀ (fuel : Nat) (V : List String) (Q : List GRef) (R : List String),
      markFuel s fuel V Q = some R →
      ∀ h v refs h', h ∈ R → h ∉ V → gcLoad s h = some v →
        extractRefs v = some refs → GRef.s h' ∈ refs →
        (lookupKV s.objects h').isSome → h' ∈ R := by
  intro fuel
  induction fuel with
  | zero =>
    intro V Q R hm
    cases hm
  | succ n ih =>
    intro V Q R hm h v refs h' hR hV hload hrefs hmem hpres
    cases Q with
    | nil =>
      simp only [markFuel] at hm
      injection hm with hm'
      rw [← hm'] at hR
      exact absurd hR hV
    | cons r q =>
      cases r with
      | other =>
        simp only [markFuel] at hm
        cases hm
      | s h₀ =>
        simp only [markFuel] at hm
        by_cases hh : h = h₀
        · subst hh
          split at hm
          · -- h already in V: contradiction
            exact absurd (by assumption) hV
          · split at hm
            · cases hm
            · -- exists = some false contradicts load success
              rename_i hex
              simp only [gcExists] at hex
              split at hex
              · cases hex
              · injection hex with hex'
                simp only [gcLoad] at hload
                split at hload
                · cases hload
                · split at hload
                  · rename_i hlk
                    rw [hlk] at hex'
                    cases hex'
                  · cases hload
            · split at hm
              · -- branch says gcLoad = none, contradiction
                rename_i hl
                rw [hload] at hl
                cases hl
              · -- gcLoad succeeded; identify the loaded value
                rename_i hl hx
                rw [hload] at hx
                injection hx with hx'
                subst hx'
                split at hm
                · -- branch says extractRefs = none, contradiction
                  rename_i hx2
                  rw [hrefs] at hx2
                  cases hx2
                · -- branch extracted refs₀; identify with refs
                  rename_i refs₀ hx2
                  rw [hrefs] at hx2
                  injection hx2 with hx2'
                  subst hx2'
                  by_cases hin : h' ∈ V ++ [h]
                  · exact markFuel_mono s n (V ++ [h]) _ R hm h' hin
                  · have hfilter : GRef.s h' ∈
                        refs.filter (fun rr =>
                          match rr with
                          | .s hh => decide (hh ∉ V ++ [h])
                          | .other => true) := by
                      apply List.mem_filter.mpr
                      exact ⟨hmem, by simp [hin]⟩
                    exact markFuel_queue_marked s n (V ++ [h]) _ R hm h'
                      (List.mem_append.mpr (Or.inr hfilter)) hpres
        · -- h is not the popped element
          split at hm
          · exact ih V q R hm h v refs h' hR hV hload hrefs hmem hpres
          · split at hm
            · cases hm
            · exact ih V q R hm h v refs h' hR hV hload hrefs hmem hpres
            · have hV' : h ∉ V ++ [h₀] := by
                simp only [List.mem_append, List.mem_singleton]
                rintro (hc | hc)
                · exact hV hc
                · exact hh hc
              split at hm
              · exact ih (V ++ [h₀]) q R hm h v refs h' hR hV' hload hrefs
                  hmem hpres
              · split at hm
                · exact ih (V ++ [h₀]) q R hm h v refs h' hR hV' hload hrefs
                    hmem hpres
                · exact ih (V ++ [h₀]) _ R hm h v refs h' hR hV' hload hrefs
                    hmem hpres

theorem gcLoad_present {s : Store} {h : String} {v : Jx}
    (hl : gcLoad s h = some v) : (lookupKV s.objects h).isSome := by
  simp only [gcLoad] at hl
  split at hl
  · cases hl
  · split at hl
    · rename_i hlk
      rw [hlk]
      rfl
    · cases hl

theorem reachable_marked (s : Store) (roots : List String) (fuel : Nat)
    (R : List String) (hm : markFuel s fuel [] (roots.map GRef.s) = some R) :
    ∀ d, ReachableFrom s roots d → (lookupKV s.objects d).isSome → d ∈ R := by
  intro d hreach
  induction hreach with
  | root hroot =>
    intro hpres
    exact markFuel_queue_marked s fuel [] (roots.map GRef.s) R hm _
      (List.mem_map.mpr ⟨_, hroot, rfl⟩) hpres
  | step hr hload hrefs hmem ih =>
    intro hpres
    rename_i h h' v refs
    have hhR : h ∈ R := ih (gcLoad_present hload)
    exact markFuel_closed s fuel [] (roots.map GRef.s) R hm h v refs h' hhR
      (List.not_mem_nil h) hload hrefs hmem hpres

theorem deleteObjectE_cases (st : Store) (h : String) :
    deleteObjectE st h = (.error (.valueError "Hash too short for shard length"), st) ∨
    deleteObjectE st h =
      (.ok true, { st with objects := removeKV st.objects h }) ∨
    deleteObjectE st h = (.ok false, st) := by
  unfold deleteObjectE
  split_ifs with h1 h2
  · exact Or.inl rfl
  · exact Or.inr (Or.inl rfl)
  · exact Or.inr (Or.inr rfl)

theorem sweepFuel_preserves (reach : List String) :
    ∀ (lst deleted errors : List String) (st : Store) (d : String),
      d ∈ reach →
      lookupKV (sweepFuel reach lst deleted errors st).2.2.objects d =
        lookupKV st.objects d := by
  intro lst
  induction lst with
  | nil =>
    intro deleted errors st d _
    rfl
  | cons h t ih =>
    intro deleted errors st d hd
    simp only [sweepFuel]
    split
    · exact ih _ _ st d hd
    · rename_i hnotreach
      have hne : d ≠ h := fun he => hnotreach (he ▸ hd)
      rcases deleteObjectE_cases st h with hdel | hdel | hdel <;> rw [hdel]
      · exact ih _ _ st d hd
      · rw [ih _ _ _ d hd]
        exact lookupKV_removeKV_ne st.objects h d hne
      · exact ih _ _ st d hd

/-- C1. GC soundness: running `collect` with `dry_run = false` never deletes
an object transitively reachable from the roots — every stored digest
reachable through snapshot bundle/parent references and tree children
references is still present, with the same file content, after the sweep. -/
theorem gc_soundness (s : Store) (roots : List String) (d : String)
    (fb : FileBytes) (hpresent : lookupKV s.objects d = some fb)
    (hreach : ReachableFrom s roots d) :
    lookupKV (gcCollect s roots false).store.objects d = some fb := by
  unfold gcCollect
  cases hm : markFuel s (gcFuel s roots) [] (roots.map GRef.s) with
  | none => exact hpresent
  | some reach =>
    have hdR : d ∈ reach :=
      reachable_marked s roots (gcFuel s roots) reach hm d hreach
        (by rw [hpresent]; rfl)
    dsimp only
    split
    · dsimp only
      rw [sweepFuel_preserves reach _ [] [] s d hdR]
      exact hpresent
    · exact hpresent

theorem gc_soundness_witness :
    lookupKV cxGcStore.objects "bb" = some (.json cxBundleRec) ∧
    lookupKV (gcCollect cxGcStore ["aa"] false).store.objects "bb" =
      some (.json cxBundleRec) ∧
    (gcCollect cxGcStore ["aa"] false).deleted = ["cc"] := by
  have hr : ReachableFrom cxGcStore ["aa"] "bb" :=
    @ReachableFrom.step cxGcStore ["aa"] "aa" "bb" cxSnapRec [GRef.s "bb"]
      (ReachableFrom.root (by decide)) (by decide) (by decide) (by decide)
  exact ⟨by decide,
    gc_soundness cxGcStore ["aa"] "bb" (.json cxBundleRec) (by decide) hr,
    by decide⟩
